import Mathlib

/-!
# Observable properties of the editor settings

A shallow embedding of `OvEditor::Settings::EditorSettings::Property<T>`
(`EditorSettings.h`) together with the multicast event it notifies.

* `T` is the value type of a property.
* `W` is the state of everything outside the property that a listener may
  read or write (the "world" of the subscribers).
* `E` is the type of the errors a listener may raise.

A listener is a function of the delivered value and the world; it returns the
world it leaves behind and, when it raises, the error.  A listener that raises
keeps the changes it made to the world before raising.  Listeners act on the
world only: they do not re-enter the property that is notifying them.
-/

namespace OvTools.Eventing

/-- Modelled from the spec: the handle that `attach` returns and `detach`
takes.  The spec says no more of it than that it identifies the attachment;
handles are taken from the natural numbers and issued in increasing order. -/
abbrev ListenerID := Nat

/-- Modelled from the spec: a listener, `callback(T)`.  Called with the
delivered value in a world, it leaves a world and possibly an error. -/
abbrev Callback (T W E : Type) := T → W → W × Option E

/-- Modelled from the spec: the multicast event `OvTools::Eventing::Event<T>`,
whose header `OvTools/Eventing/Event.h` is not among the sources.  The spec
describes it as "an explicit ordered list of callback handles with
attach/detach/invoke": `listeners` holds the attached callbacks with their
handles, oldest first, and `nextHandle` is the handle the next attachment
receives. -/
structure Event (T W E : Type) where
  listeners : List (ListenerID × Callback T W E)
  nextHandle : ListenerID

/-- What one `Invoke` did: the world it left, the listener calls it made, in
the order it made them (handle and argument of each call), and the error that
escaped, if one did. -/
structure Delivery (T W E : Type) where
  world : W
  calls : List (ListenerID × T)
  error : Option E

variable {T W E : Type}

/-- Modelled from the spec: a default-constructed event has no listener. -/
def Event.empty : Event T W E :=
  { listeners := [], nextHandle := 0 }

/-- Modelled from the spec: `attach(callback) -> handle`.  The callback goes to
the end of the list, so that invocation order is attachment order. -/
def Event.attach (ev : Event T W E) (cb : Callback T W E) : Event T W E × ListenerID :=
  ({ listeners := ev.listeners ++ [(ev.nextHandle, cb)], nextHandle := ev.nextHandle + 1 },
   ev.nextHandle)

/-- Modelled from the spec: `detach(handle) -> void`. -/
def Event.detach (ev : Event T W E) (h : ListenerID) : Event T W E :=
  { ev with listeners := ev.listeners.filter (fun l => l.1 != h) }

/-- Modelled from the spec: the delivery loop of `Invoke`.  The callbacks are
called one after the other; an error raised by a callback is not caught, so it
ends the loop ("the original design aborts"). -/
def deliver : List (ListenerID × Callback T W E) → T → W → Delivery T W E
  | [], _, w => { world := w, calls := [], error := none }
  | (h, cb) :: rest, v, w =>
    match cb v w with
    | (w1, some e) => { world := w1, calls := [(h, v)], error := some e }
    | (w1, none) =>
      let d := deliver rest v w1
      { world := d.world, calls := (h, v) :: d.calls, error := d.error }

/-- Modelled from the spec: `invoke(value) -> void` "invokes all attached
callbacks in attachment order"; `Set` calls it as `OnValueChanged.Invoke`. -/
def Event.Invoke (ev : Event T W E) (v : T) (w : W) : Delivery T W E :=
  deliver ev.listeners v w

/-- The handles of the attached listeners, oldest first. -/
def Event.handles (ev : Event T W E) : List ListenerID :=
  ev.listeners.map Prod.fst

/-- The attached callbacks, oldest first. -/
def Event.callbacks (ev : Event T W E) : List (Callback T W E) :=
  ev.listeners.map Prod.snd

/-- Running the callbacks of a list one after the other, each in the world its
predecessor left. -/
def runCallbacks (cbs : List (Callback T W E)) (v : T) (w : W) : W :=
  cbs.foldl (fun w1 cb => (cb v w1).1) w

/-- Handles are issued once: the attached handles are pairwise different and
all below the next handle to issue. -/
def Event.WF (ev : Event T W E) : Prop :=
  ev.handles.Nodup ∧ ∀ h ∈ ev.handles, h < ev.nextHandle

/-- Whether the handles of an event are in order can be computed. -/
instance Event.decidableWF (ev : Event T W E) : Decidable ev.WF := by
  unfold Event.WF
  infer_instance

end OvTools.Eventing

namespace OvEditor.Settings.EditorSettings

open OvTools.Eventing

variable {T W E : Type}

/-- The class template `Property<T>`: the public event `OnValueChanged` and the
private value `m_value`. -/
structure Property (T W E : Type) where
  OnValueChanged : Event T W E
  m_value : T

/-- The reference `T&` that `operator=` returns: it designates a member of the
property it was obtained from. -/
inductive ValueRef where
  | m_value
  deriving DecidableEq, Repr

/-- Reading through a reference in a given state of the property. -/
def ValueRef.read (r : ValueRef) (p : Property T W E) : T :=
  match r with
  | .m_value => p.m_value

/-- What a call of a member function did: the state of the property and of the
world after the call, the listener calls made during it, and either the value
returned or the error that escaped to the caller. -/
structure Outcome (T W E R : Type) where
  self : Property T W E
  world : W
  calls : List (ListenerID × T)
  result : Except E R

/-- The error that escaped from a call, if one did. -/
def Outcome.error {R : Type} (o : Outcome T W E R) : Option E :=
  match o.result with
  | .ok _ => none
  | .error e => some e

/-- The value a call returned, if it returned. -/
def Outcome.returned {R : Type} (o : Outcome T W E R) : Option R :=
  match o.result with
  | .ok r => some r
  | .error _ => none

/-- The constructor `Property(T p_value) : m_value(p_value) {}`; the event
member is default-constructed. -/
def Property.ctor (p_value : T) : Property T W E :=
  { OnValueChanged := Event.empty, m_value := p_value }

/-- The member function `Set`:
`m_value = p_value; OnValueChanged.Invoke(m_value);`.
There is no handler around the invocation: an error raised by a listener
leaves `Set` as it is. -/
def Property.Set (p : Property T W E) (p_value : T) (w : W) : Outcome T W E Unit :=
  let p1 : Property T W E := { p with m_value := p_value }
  let d := p1.OnValueChanged.Invoke p1.m_value w
  { self := p1, world := d.world, calls := d.calls,
    result := match d.error with
      | none => .ok ()
      | some e => .error e }

/-- The member function `operator=`: `Set(p_value); return m_value;`. -/
def Property.operatorAssign (p : Property T W E) (p_value : T) (w : W) :
    Outcome T W E ValueRef :=
  let o := p.Set p_value w
  { self := o.self, world := o.world, calls := o.calls,
    result := match o.result with
      | .ok _ => .ok ValueRef.m_value
      | .error e => .error e }

/-- The conversion `operator T()`: `return m_value;`.  It is not declared
`const`, so it is given the shape of a call that may change the state. -/
def Property.operatorT (p : Property T W E) (w : W) : Outcome T W E T :=
  { self := p, world := w, calls := [], result := .ok p.m_value }

/-- The member function `Get() const`: `return m_value;`. -/
def Property.Get (p : Property T W E) : T :=
  p.m_value

/-- `Get` as a call, in the shape of the other calls. -/
def Property.callGet (p : Property T W E) (w : W) : Outcome T W E T :=
  { self := p, world := w, calls := [], result := .ok p.Get }

/-- Attaching a listener to the public event of a property. -/
def Property.attach (p : Property T W E) (cb : Callback T W E) :
    Property T W E × ListenerID :=
  ({ p with OnValueChanged := (p.OnValueChanged.attach cb).1 }, (p.OnValueChanged.attach cb).2)

/-- Detaching a listener from the public event of a property. -/
def Property.detach (p : Property T W E) (h : ListenerID) : Property T W E :=
  { p with OnValueChanged := p.OnValueChanged.detach h }

/-- Attaching several listeners, one after the other; the handles come back in
attachment order. -/
def Property.attachAll (p : Property T W E) :
    List (Callback T W E) → Property T W E × List ListenerID
  | [] => (p, [])
  | cb :: cbs =>
    let r := (p.attach cb).1.attachAll cbs
    (r.1, (p.attach cb).2 :: r.2)

/-- The static member `ShowGeometryBounds = { false }`. -/
def ShowGeometryBounds : Property Bool W E :=
  Property.ctor false

/-! ### Client programs

A client of a property performs a sequence of operations on it.  A client that
receives an error from `Set` or `operator=` handles it and goes on with its
next operation. -/

/-- One operation of a client on a property. -/
inductive Op (T W E : Type) where
  | attach (cb : Callback T W E)
  | detach (h : ListenerID)
  | set (v : T)
  | assign (v : T)
  | get
  | convert

/-- What the client sees of one operation. -/
structure Obs (T E : Type) where
  calls : List (ListenerID × T)
  error : Option E
  value : Option T
  handle : Option ListenerID

/-- One operation, from a state of the property and of the world. -/
def step (op : Op T W E) (s : Property T W E × W) : (Property T W E × W) × Obs T E :=
  match op with
  | .attach cb =>
    (((s.1.attach cb).1, s.2),
     { calls := [], error := none, value := none, handle := some (s.1.attach cb).2 })
  | .detach h =>
    ((s.1.detach h, s.2), { calls := [], error := none, value := none, handle := none })
  | .set v =>
    let o := s.1.Set v s.2
    ((o.self, o.world), { calls := o.calls, error := o.error, value := none, handle := none })
  | .assign v =>
    let o := s.1.operatorAssign v s.2
    ((o.self, o.world),
     { calls := o.calls, error := o.error,
       value := o.returned.map (fun r => r.read o.self), handle := none })
  | .get =>
    let o := s.1.callGet s.2
    ((o.self, o.world),
     { calls := o.calls, error := o.error, value := o.returned, handle := none })
  | .convert =>
    let o := s.1.operatorT s.2
    ((o.self, o.world),
     { calls := o.calls, error := o.error, value := o.returned, handle := none })

/-- A sequence of operations; the observations come back in the order of the
operations. -/
def run : List (Op T W E) → Property T W E × W → (Property T W E × W) × List (Obs T E)
  | [], s => (s, [])
  | op :: ops, s =>
    let r := step op s
    let rs := run ops r.1
    (rs.1, r.2 :: rs.2)

/-- The value an operation passes to `Set`, directly or through `operator=`. -/
def Op.setArg : Op T W E → Option T
  | .set v => some v
  | .assign v => some v
  | _ => none

/-- The argument of the last call of `Set` in a sequence of operations. -/
def lastSetArg (ops : List (Op T W E)) : Option T :=
  (ops.filterMap Op.setArg).getLast?

/-- A sequence of `Set` calls, one per value. -/
def setAll (vs : List T) : List (Op T W E) :=
  vs.map Op.set

/-- The operations that only read the value. -/
def Op.isRead : Op T W E → Bool
  | .get => true
  | .convert => true
  | _ => false

/-- The argument of the last call of `Set` that returned without error, from
the operations of a client and what it observed of each. -/
def lastSuccessfulSetArg (ops : List (Op T W E)) (obs : List (Obs T E)) : Option T :=
  ((ops.zip obs).filterMap (fun x => if x.2.error.isNone then x.1.setArg else none)).getLast?

/-- The states of a property that a client can bring about: the property is
constructed with a default and then operated on. -/
def Reachable (p : Property T W E) : Prop :=
  ∃ (d : T) (ops : List (Op T W E)) (w0 : W), (run ops (Property.ctor d, w0)).1.1 = p

/-! ### Sample listeners -/

/-- A listener that appends each value it receives to a record kept in the
world. -/
def recorder : Callback T (List T) E :=
  fun v w => (w ++ [v], none)

/-- A listener that raises the error `code` whenever it is called. -/
def alwaysFails (code : E) : Callback T W E :=
  fun _ w => (w, some code)

/-- A listener that records the value it receives and raises the error `code`
when that value is `bad`. -/
def failsOn (bad : Nat) (code : E) : Callback Nat (List Nat) E :=
  fun v w => (w ++ [v], if v = bad then some code else none)

/-! ### The registry

The class `EditorSettings` cannot be constructed; its state is the state of its
thirteen static members.  The members are indexed by their names, in the order
of their declaration. -/

/-- The values of the C++ type `float` that a setting holds, each by the
rational number it denotes.  The defaults `0.5f`, `1.0f` and `15.0f` are
denoted exactly. -/
abbrev CFloat := ℚ

/-- The integers of the two enumerators that defaults are cast from.  The
headers `OvUI/Styling/EStyle.h` and `OvEditor/Settings/EFontSize.h` are not
among the sources, so `static_cast<int>(OvUI::Styling::EStyle::DEFAULT_DARK)`
and `static_cast<int>(EFontSize::DEFAULT)` are taken as given. -/
structure Enumerators where
  DEFAULT_DARK : Int
  DEFAULT : Int

/-- The static member `ShowLightBounds = { false }`. -/
def ShowLightBounds : Property Bool W E :=
  Property.ctor false

/-- The static member `EditorFrustumGeometryCulling = { true }`. -/
def EditorFrustumGeometryCulling : Property Bool W E :=
  Property.ctor true

/-- The static member `EditorFrustumLightCulling = { true }`. -/
def EditorFrustumLightCulling : Property Bool W E :=
  Property.ctor true

/-- The static member `DebugFrustumCulling = { false }`. -/
def DebugFrustumCulling : Property Bool W E :=
  Property.ctor false

/-- The static member `LightBillboardScale = { 0.5f }`. -/
def LightBillboardScale : Property CFloat W E :=
  Property.ctor 0.5

/-- The static member `ReflectionProbeScale = { 0.5f }`. -/
def ReflectionProbeScale : Property CFloat W E :=
  Property.ctor 0.5

/-- The static member `TranslationSnapUnit = { 1.0f }`. -/
def TranslationSnapUnit : Property CFloat W E :=
  Property.ctor 1.0

/-- The static member `RotationSnapUnit = { 15.0f }`. -/
def RotationSnapUnit : Property CFloat W E :=
  Property.ctor 15.0

/-- The static member `ScalingSnapUnit = { 1.0f }`. -/
def ScalingSnapUnit : Property CFloat W E :=
  Property.ctor 1.0

/-- The static member
`ColorTheme = { static_cast<int>(OvUI::Styling::EStyle::DEFAULT_DARK) }`. -/
def ColorTheme (en : Enumerators) : Property Int W E :=
  Property.ctor en.DEFAULT_DARK

/-- The static member `ConsoleMaxLogs = { 500 }`. -/
def ConsoleMaxLogs : Property Int W E :=
  Property.ctor 500

/-- The static member `FontSize = { static_cast<int>(EFontSize::DEFAULT) }`. -/
def FontSize (en : Enumerators) : Property Int W E :=
  Property.ctor en.DEFAULT

/-- The names of the static members of `EditorSettings`, in the order of their
declaration. -/
inductive Setting where
  | ShowGeometryBounds
  | ShowLightBounds
  | EditorFrustumGeometryCulling
  | EditorFrustumLightCulling
  | DebugFrustumCulling
  | LightBillboardScale
  | ReflectionProbeScale
  | TranslationSnapUnit
  | RotationSnapUnit
  | ScalingSnapUnit
  | ColorTheme
  | ConsoleMaxLogs
  | FontSize
  deriving DecidableEq, Repr

/-- The value type of each member: `Property<bool>`, `Property<float>` or
`Property<int>`. -/
@[reducible] def Setting.valueType : Setting → Type
  | .ShowGeometryBounds => Bool
  | .ShowLightBounds => Bool
  | .EditorFrustumGeometryCulling => Bool
  | .EditorFrustumLightCulling => Bool
  | .DebugFrustumCulling => Bool
  | .LightBillboardScale => CFloat
  | .ReflectionProbeScale => CFloat
  | .TranslationSnapUnit => CFloat
  | .RotationSnapUnit => CFloat
  | .ScalingSnapUnit => CFloat
  | .ColorTheme => Int
  | .ConsoleMaxLogs => Int
  | .FontSize => Int

/-- All the members, in the order of their declaration. -/
def Setting.all : List Setting :=
  [.ShowGeometryBounds, .ShowLightBounds, .EditorFrustumGeometryCulling,
   .EditorFrustumLightCulling, .DebugFrustumCulling, .LightBillboardScale,
   .ReflectionProbeScale, .TranslationSnapUnit, .RotationSnapUnit, .ScalingSnapUnit,
   .ColorTheme, .ConsoleMaxLogs, .FontSize]

/-- A state of the registry: the state of each static member. -/
structure Registry (W E : Type) where
  prop : (s : Setting) → Property s.valueType W E

/-- The registry after static initialisation: every member as it is
declared. -/
def Registry.initial (en : Enumerators) : Registry W E where
  prop := fun s =>
    match s with
    | .ShowGeometryBounds => ShowGeometryBounds
    | .ShowLightBounds => ShowLightBounds
    | .EditorFrustumGeometryCulling => EditorFrustumGeometryCulling
    | .EditorFrustumLightCulling => EditorFrustumLightCulling
    | .DebugFrustumCulling => DebugFrustumCulling
    | .LightBillboardScale => LightBillboardScale
    | .ReflectionProbeScale => ReflectionProbeScale
    | .TranslationSnapUnit => TranslationSnapUnit
    | .RotationSnapUnit => RotationSnapUnit
    | .ScalingSnapUnit => ScalingSnapUnit
    | .ColorTheme => ColorTheme en
    | .ConsoleMaxLogs => ConsoleMaxLogs
    | .FontSize => FontSize en

/-- The registry with one member replaced. -/
def Registry.put (reg : Registry W E) (s : Setting) (p : Property s.valueType W E) :
    Registry W E where
  prop := Function.update reg.prop s p

/-- Attaching a listener to the event of a member. -/
def Registry.attach (reg : Registry W E) (s : Setting) (cb : Callback s.valueType W E) :
    Registry W E × ListenerID :=
  (reg.put s ((reg.prop s).attach cb).1, ((reg.prop s).attach cb).2)

/-- What a call on the registry did: the state of the registry and of the
world after it, the listener calls it made, member by member, and the error
that escaped, if one did. -/
structure RegOutcome (W E : Type) where
  reg : Registry W E
  world : W
  calls : (s : Setting) → List (ListenerID × s.valueType)
  error : Option E

/-- The call `EditorSettings::s.Set(v)` on a member of the registry. -/
def Registry.Set (reg : Registry W E) (s : Setting) (v : s.valueType) (w : W) :
    RegOutcome W E :=
  let o := (reg.prop s).Set v w
  { reg := reg.put s o.self, world := o.world,
    calls := Function.update (fun _ => []) s o.calls, error := o.error }

/-- Modelled from the spec: the persisted store that `Load` reads, with
`read(name) -> T | absent`; `EditorSettings.cpp` and the file format are not
among the sources.  A malformed value counts as absent. -/
structure Store where
  read : (s : Setting) → Option s.valueType

/-- Modelled from the spec: what `Load` does for one setting.  A setting that
is absent from the store is left as it is; for a setting that is present `Load`
"calls `Set` (not a silent field overwrite)" with the stored value.  "The
design does not catch or suppress listener errors": once a `Set` has ended with
an error, the error leaves `Load` and the remaining settings are not visited. -/
def loadEntry (store : Store) (st : RegOutcome W E) (s : Setting) : RegOutcome W E :=
  match st.error with
  | some _ => st
  | none =>
    match store.read s with
    | none => st
    | some v =>
      let o := (st.reg.prop s).Set v st.world
      { reg := st.reg.put s o.self, world := o.world,
        calls := Function.update st.calls s (st.calls s ++ o.calls), error := o.error }

/-- Modelled from the spec: `Load` over a list of settings, in order. -/
def loadAll (store : Store) (ss : List Setting) (st : RegOutcome W E) : RegOutcome W E :=
  ss.foldl (loadEntry store) st

/-- Modelled from the spec: `Load() -> void` "reads the external persisted
store and calls `Set` ... on every corresponding property".  `EditorSettings.h`
only declares it; its body is not among the sources.  The settings are visited
in the order of their declaration. -/
def Load (store : Store) (reg : Registry W E) (w : W) : RegOutcome W E :=
  loadAll store Setting.all { reg := reg, world := w, calls := fun _ => [], error := none }

/-- A store that holds the given values for `ShowGeometryBounds` and
`ShowLightBounds` and nothing else. -/
def Store.bounds (geometry light : Bool) : Store where
  read := fun s =>
    match s with
    | .ShowGeometryBounds => some geometry
    | .ShowLightBounds => some light
    | _ => none

end OvEditor.Settings.EditorSettings

/-! ## Delivery -/

namespace OvTools.Eventing

variable {T W E : Type}

theorem deliver_nil (v : T) (w : W) :
    deliver ([] : List (ListenerID × Callback T W E)) v w
      = { world := w, calls := [], error := none } := rfl

theorem deliver_cons_fail (h : ListenerID) (cb : Callback T W E)
    (rest : List (ListenerID × Callback T W E)) (v : T) (w : W) (e : E)
    (hf : (cb v w).2 = some e) :
    deliver ((h, cb) :: rest) v w
      = { world := (cb v w).1, calls := [(h, v)], error := some e } := by
  rcases hcb : cb v w with ⟨w1, r⟩
  rw [hcb] at hf
  simp only at hf
  subst hf
  simp [deliver, hcb]

theorem deliver_cons_ok (h : ListenerID) (cb : Callback T W E)
    (rest : List (ListenerID × Callback T W E)) (v : T) (w : W)
    (hf : (cb v w).2 = none) :
    deliver ((h, cb) :: rest) v w
      = { world := (deliver rest v (cb v w).1).world,
          calls := (h, v) :: (deliver rest v (cb v w).1).calls,
          error := (deliver rest v (cb v w).1).error } := by
  rcases hcb : cb v w with ⟨w1, r⟩
  rw [hcb] at hf
  simp only at hf
  subst hf
  simp [deliver, hcb]

/-- A delivery that ends without error called every listener of the list, in
the order of the list, with the delivered value. -/
theorem deliver_calls_of_ok (ls : List (ListenerID × Callback T W E)) (v : T) (w : W)
    (hok : (deliver ls v w).error = none) :
    (deliver ls v w).calls = ls.map (fun l => (l.1, v)) := by
  induction ls generalizing w with
  | nil => rfl
  | cons l rest ih =>
    obtain ⟨h, cb⟩ := l
    cases hf : (cb v w).2 with
    | some e =>
      rw [deliver_cons_fail h cb rest v w e hf] at hok
      simp at hok
    | none =>
      rw [deliver_cons_ok h cb rest v w hf] at hok ⊢
      simp only at hok
      simp [ih _ hok]

/-- A delivery that ends without error leaves the world that the callbacks
leave when run one after the other. -/
theorem deliver_world_of_ok (ls : List (ListenerID × Callback T W E)) (v : T) (w : W)
    (hok : (deliver ls v w).error = none) :
    (deliver ls v w).world = runCallbacks (ls.map Prod.snd) v w := by
  induction ls generalizing w with
  | nil => rfl
  | cons l rest ih =>
    obtain ⟨h, cb⟩ := l
    cases hf : (cb v w).2 with
    | some e =>
      rw [deliver_cons_fail h cb rest v w e hf] at hok
      simp at hok
    | none =>
      rw [deliver_cons_ok h cb rest v w hf] at hok ⊢
      simp only at hok
      simp [ih _ hok, runCallbacks]

/-- Delivery to a list in two parts, when the first part ends without error:
the second part goes on from the world the first part left. -/
theorem deliver_append_of_ok (pre post : List (ListenerID × Callback T W E)) (v : T) (w : W)
    (hok : (deliver pre v w).error = none) :
    deliver (pre ++ post) v w
      = { world := (deliver post v (deliver pre v w).world).world,
          calls := pre.map (fun l => (l.1, v)) ++ (deliver post v (deliver pre v w).world).calls,
          error := (deliver post v (deliver pre v w).world).error } := by
  induction pre generalizing w with
  | nil => rfl
  | cons l rest ih =>
    obtain ⟨h, cb⟩ := l
    cases hf : (cb v w).2 with
    | some e =>
      rw [deliver_cons_fail h cb rest v w e hf] at hok
      simp at hok
    | none =>
      rw [deliver_cons_ok h cb rest v w hf] at hok
      simp only at hok
      rw [List.cons_append, deliver_cons_ok h cb (rest ++ post) v w hf, ih _ hok,
        deliver_cons_ok h cb rest v w hf]
      simp

/-- Delivery to a list in two parts, when the first part ends with an error:
the second part is not reached. -/
theorem deliver_append_of_fail (pre post : List (ListenerID × Callback T W E)) (v : T) (w : W)
    (e : E) (hfail : (deliver pre v w).error = some e) :
    deliver (pre ++ post) v w = deliver pre v w := by
  induction pre generalizing w with
  | nil => simp [deliver] at hfail
  | cons l rest ih =>
    obtain ⟨h, cb⟩ := l
    cases hf : (cb v w).2 with
    | some e1 =>
      rw [List.cons_append, deliver_cons_fail h cb (rest ++ post) v w e1 hf,
        deliver_cons_fail h cb rest v w e1 hf]
    | none =>
      rw [deliver_cons_ok h cb rest v w hf] at hfail
      simp only at hfail
      rw [List.cons_append, deliver_cons_ok h cb (rest ++ post) v w hf, ih _ hfail,
        deliver_cons_ok h cb rest v w hf]

/-- The delivery up to and including the first listener that fails. -/
theorem deliver_first_failure (pre post : List (ListenerID × Callback T W E))
    (h : ListenerID) (cb : Callback T W E) (v : T) (w : W) (e : E)
    (hpre : (deliver pre v w).error = none)
    (hfail : (cb v (deliver pre v w).world).2 = some e) :
    deliver (pre ++ (h, cb) :: post) v w
      = { world := (cb v (deliver pre v w).world).1,
          calls := pre.map (fun l => (l.1, v)) ++ [(h, v)],
          error := some e } := by
  rw [deliver_append_of_ok pre _ v w hpre, deliver_cons_fail h cb post v _ e hfail]

/-- A delivery ends with an error exactly when it reaches a listener that
fails; the error is the one that listener raised. -/
theorem deliver_error_iff (ls : List (ListenerID × Callback T W E)) (v : T) (w : W) (e : E) :
    (deliver ls v w).error = some e ↔
      ∃ pre h cb post, ls = pre ++ (h, cb) :: post ∧ (deliver pre v w).error = none ∧
        (cb v (deliver pre v w).world).2 = some e := by
  constructor
  · intro herr
    induction ls generalizing w with
    | nil => simp [deliver] at herr
    | cons l rest ih =>
      obtain ⟨h, cb⟩ := l
      cases hf : (cb v w).2 with
      | some e1 =>
        rw [deliver_cons_fail h cb rest v w e1 hf] at herr
        simp only [Option.some.injEq] at herr
        subst herr
        exact ⟨[], h, cb, rest, rfl, rfl, hf⟩
      | none =>
        rw [deliver_cons_ok h cb rest v w hf] at herr
        simp only at herr
        obtain ⟨pre, h1, cb1, post, hsplit, hpre, hfail⟩ := ih _ herr
        refine ⟨(h, cb) :: pre, h1, cb1, post, by simp [hsplit], ?_, ?_⟩
        · rw [deliver_cons_ok h cb pre v w hf]
          exact hpre
        · rw [deliver_cons_ok h cb pre v w hf]
          exact hfail
  · rintro ⟨pre, h, cb, post, hsplit, hpre, hfail⟩
    rw [hsplit, deliver_first_failure pre post h cb v w e hpre hfail]

/-- Listeners that never fail on a value give a delivery without error. -/
theorem deliver_ok_of_never_failing (ls : List (ListenerID × Callback T W E)) (v : T) (w : W)
    (hnf : ∀ l ∈ ls, ∀ w1, (l.2 v w1).2 = none) :
    (deliver ls v w).error = none := by
  induction ls generalizing w with
  | nil => rfl
  | cons l rest ih =>
    obtain ⟨h, cb⟩ := l
    have hf : (cb v w).2 = none := hnf (h, cb) (List.mem_cons_self _ _) w
    rw [deliver_cons_ok h cb rest v w hf]
    exact ih _ (fun l hl => hnf l (List.mem_cons_of_mem _ hl))

end OvTools.Eventing

/-! ## Handles -/

namespace OvTools.Eventing

variable {T W E : Type}

theorem Event.WF_empty : (Event.empty : Event T W E).WF := by
  simp [Event.WF, Event.empty, Event.handles]

theorem Event.WF_attach (ev : Event T W E) (cb : Callback T W E) (hwf : ev.WF) :
    (ev.attach cb).1.WF := by
  obtain ⟨hnd, hlt⟩ := hwf
  simp only [Event.WF, Event.attach, Event.handles, List.map_append, List.map_cons,
    List.map_nil] at *
  constructor
  · rw [List.nodup_append]
    refine ⟨hnd, List.nodup_singleton _, ?_⟩
    intro a ha hb
    simp only [List.mem_singleton] at hb
    subst hb
    exact Nat.lt_irrefl _ (hlt _ ha)
  · intro h hh
    rw [List.mem_append] at hh
    rcases hh with hh | hh
    · exact Nat.lt_succ_of_lt (hlt h hh)
    · simp only [List.mem_singleton] at hh
      subst hh
      exact Nat.lt_succ_self _

theorem Event.WF_detach (ev : Event T W E) (h : ListenerID) (hwf : ev.WF) :
    (ev.detach h).WF := by
  obtain ⟨hnd, hlt⟩ := hwf
  simp only [Event.WF, Event.detach, Event.handles] at *
  constructor
  · exact (List.filter_sublist _).map Prod.fst |>.nodup hnd
  · intro a ha
    exact hlt a (((List.filter_sublist _).map Prod.fst).subset ha)

end OvTools.Eventing

/-! ## Calls on a property -/

namespace OvEditor.Settings.EditorSettings

open OvTools.Eventing

variable {T W E : Type}

theorem Set_self (p : Property T W E) (v : T) (w : W) :
    (p.Set v w).self = { p with m_value := v } := rfl

theorem Set_calls (p : Property T W E) (v : T) (w : W) :
    (p.Set v w).calls = (deliver p.OnValueChanged.listeners v w).calls := rfl

theorem Set_world (p : Property T W E) (v : T) (w : W) :
    (p.Set v w).world = (deliver p.OnValueChanged.listeners v w).world := rfl

theorem Set_error (p : Property T W E) (v : T) (w : W) :
    (p.Set v w).error = (deliver p.OnValueChanged.listeners v w).error := by
  simp only [Outcome.error, Property.Set, Event.Invoke]
  cases (deliver p.OnValueChanged.listeners v w).error <;> rfl

theorem Set_result_error_iff (p : Property T W E) (v : T) (w : W) (e : E) :
    (p.Set v w).result = .error e ↔ (deliver p.OnValueChanged.listeners v w).error = some e := by
  simp only [Property.Set, Event.Invoke]
  cases (deliver p.OnValueChanged.listeners v w).error <;> simp

theorem Set_result_ok_iff (p : Property T W E) (v : T) (w : W) :
    (p.Set v w).result = .ok () ↔ (deliver p.OnValueChanged.listeners v w).error = none := by
  simp only [Property.Set, Event.Invoke]
  cases (deliver p.OnValueChanged.listeners v w).error <;> simp

theorem operatorAssign_error (p : Property T W E) (v : T) (w : W) :
    (p.operatorAssign v w).error = (p.Set v w).error := by
  simp only [Outcome.error, Property.operatorAssign]
  cases (p.Set v w).result <;> rfl

theorem operatorAssign_returned (p : Property T W E) (v : T) (w : W) :
    (p.operatorAssign v w).returned = (p.Set v w).returned.map (fun _ => ValueRef.m_value) := by
  simp only [Outcome.returned, Property.operatorAssign]
  cases (p.Set v w).result <;> rfl

/-- The value a property holds after one operation of a client. -/
theorem step_value (op : Op T W E) (s : Property T W E × W) :
    (step op s).1.1.m_value = op.setArg.getD s.1.m_value := by
  cases op <;> rfl

/-- The event of a property after an operation that is not an attachment or a
detachment. -/
theorem step_event_of_setArg (op : Op T W E) (s : Property T W E × W) (v : T)
    (h : op.setArg = some v) :
    (step op s).1.1.OnValueChanged = s.1.OnValueChanged := by
  cases op <;> first | rfl | simp [Op.setArg] at h

theorem getLast?_cons_getD {α : Type} (a : α) (l : List α) (d : α) :
    (a :: l).getLast?.getD d = l.getLast?.getD a := by
  cases l with
  | nil => rfl
  | cons b l =>
    rw [List.getLast?_cons_cons]
    cases h : (b :: l).getLast? with
    | none => simp at h
    | some x => rfl

theorem lastSetArg_cons (op : Op T W E) (ops : List (Op T W E)) (d : T) :
    (lastSetArg (op :: ops)).getD d = (lastSetArg ops).getD (op.setArg.getD d) := by
  unfold lastSetArg
  cases h : op.setArg with
  | none => simp [List.filterMap_cons, h]
  | some v =>
    rw [List.filterMap_cons_some h, getLast?_cons_getD]
    rfl

/-- The value a property holds after a sequence of operations: the argument of
the last `Set`, or the value it held before. -/
theorem run_value (ops : List (Op T W E)) (s : Property T W E × W) :
    (run ops s).1.1.m_value = (lastSetArg ops).getD s.1.m_value := by
  induction ops generalizing s with
  | nil => rfl
  | cons op ops ih =>
    rw [lastSetArg_cons]
    show (run ops (step op s).1).1.1.m_value = _
    rw [ih, step_value]

theorem lastSetArg_setAll (vs : List T) :
    lastSetArg (setAll vs : List (Op T W E)) = vs.getLast? := by
  unfold lastSetArg setAll
  rw [List.filterMap_map]
  have : (Op.setArg ∘ (Op.set : T → Op T W E)) = some := rfl
  rw [this, List.filterMap_some]

theorem attach_value (p : Property T W E) (cb : Callback T W E) :
    (p.attach cb).1.m_value = p.m_value := rfl

theorem attachAll_value (p : Property T W E) (cbs : List (Callback T W E)) :
    (p.attachAll cbs).1.m_value = p.m_value := by
  induction cbs generalizing p with
  | nil => rfl
  | cons cb cbs ih =>
    show ((p.attach cb).1.attachAll cbs).1.m_value = _
    rw [ih, attach_value]

/-- The handles that `attachAll` returns are the next handles of the event, in
order. -/
theorem attachAll_handles (p : Property T W E) (cbs : List (Callback T W E)) :
    (p.attachAll cbs).2 = List.range' p.OnValueChanged.nextHandle cbs.length := by
  induction cbs generalizing p with
  | nil => rfl
  | cons cb cbs ih =>
    show (p.attach cb).2 :: ((p.attach cb).1.attachAll cbs).2 = _
    rw [ih]
    simp [Property.attach, Event.attach, List.range'_succ]

/-- The listeners of a property after `attachAll`: the earlier ones, then the
new ones with their handles, in attachment order. -/
theorem attachAll_listeners (p : Property T W E) (cbs : List (Callback T W E)) :
    (p.attachAll cbs).1.OnValueChanged.listeners
      = p.OnValueChanged.listeners ++ (p.attachAll cbs).2.zip cbs := by
  induction cbs generalizing p with
  | nil => simp [Property.attachAll]
  | cons cb cbs ih =>
    show ((p.attach cb).1.attachAll cbs).1.OnValueChanged.listeners
      = _ ++ ((p.attach cb).2 :: ((p.attach cb).1.attachAll cbs).2).zip (cb :: cbs)
    rw [ih]
    simp [Property.attach, Event.attach]

theorem step_WF (op : Op T W E) (s : Property T W E × W) (hwf : s.1.OnValueChanged.WF) :
    (step op s).1.1.OnValueChanged.WF := by
  cases op with
  | attach cb => exact Event.WF_attach _ cb hwf
  | detach h => exact Event.WF_detach _ h hwf
  | set v => exact hwf
  | assign v => exact hwf
  | get => exact hwf
  | convert => exact hwf

theorem run_WF (ops : List (Op T W E)) (s : Property T W E × W) (hwf : s.1.OnValueChanged.WF) :
    (run ops s).1.1.OnValueChanged.WF := by
  induction ops generalizing s with
  | nil => exact hwf
  | cons op ops ih => exact ih _ (step_WF op s hwf)

/-- In a reachable state the handles of the attached listeners are pairwise
different and below the next handle. -/
theorem Reachable.WF {p : Property T W E} (hp : Reachable p) : p.OnValueChanged.WF := by
  obtain ⟨d, ops, w0, rfl⟩ := hp
  exact run_WF ops _ Event.WF_empty

theorem Reachable.ctor (d : T) (w0 : W) : Reachable (Property.ctor d : Property T W E) :=
  ⟨d, [], w0, rfl⟩

end OvEditor.Settings.EditorSettings

/-! ## The contract of `Property<T>` -/

namespace OvEditor.Settings.EditorSettings

open OvTools.Eventing

variable {T W E : Type}

/-- C1. A property is constructed with the default `d`, listeners `cbs` are
attached to it, and `Set` is called on each value of `vs` in turn.  `Get()`
after the last `Set` returns the last value of `vs`, exactly as it was passed;
it returns `d` when `vs` is empty.  This holds for every value type, and
whether or not a listener fails. -/
theorem C1_get_returns_last_set (d : T) (cbs : List (Callback T W E)) (vs : List T) (v : T)
    (w : W) :
    (run (setAll vs) (((Property.ctor d).attachAll cbs).1, w)).1.1.Get = vs.getLast?.getD d ∧
    (run (setAll (vs ++ [v])) (((Property.ctor d).attachAll cbs).1, w)).1.1.Get = v ∧
    (run (setAll []) (((Property.ctor d).attachAll cbs).1, w)).1.1.Get = d := by
  have key : ∀ us : List T,
      (run (setAll us) (((Property.ctor d).attachAll cbs).1, w)).1.1.Get = us.getLast?.getD d := by
    intro us
    show (run (setAll us) (((Property.ctor d).attachAll cbs).1, w)).1.1.m_value = _
    rw [run_value, lastSetArg_setAll, attachAll_value]
    rfl
  refine ⟨key vs, ?_, key []⟩
  rw [key (vs ++ [v])]
  simp

/-- C4. Constructing a property with `d` gives a property whose `Get()` returns
`d` and whose event has no listener; a following `Set(v)` calls no callback,
leaves the world as it was and returns without error. -/
theorem C4_constructor (d v : T) (w : W) :
    (Property.ctor d : Property T W E).Get = d ∧
    (Property.ctor d : Property T W E).OnValueChanged.listeners = [] ∧
    ((Property.ctor d : Property T W E).Set v w).calls = [] ∧
    ((Property.ctor d : Property T W E).Set v w).world = w ∧
    ((Property.ctor d : Property T W E).Set v w).result = .ok () :=
  ⟨rfl, rfl, rfl, rfl, rfl⟩

/-- C5. In every state of a property and of the world, `property = v` does what
`Set(v)` does: the same property state results, the same listener calls are
made in the same order, the same world is left, the same error escapes.  When
`Set` returns, `operator=` returns the reference to `m_value`; reading through
it gives `v`, which is also what `Get()` then returns. -/
theorem C5_operatorAssign_is_Set (p : Property T W E) (v : T) (w : W) :
    (p.operatorAssign v w).self = (p.Set v w).self ∧
    (p.operatorAssign v w).world = (p.Set v w).world ∧
    (p.operatorAssign v w).calls = (p.Set v w).calls ∧
    (p.operatorAssign v w).error = (p.Set v w).error ∧
    (p.operatorAssign v w).returned = (p.Set v w).returned.map (fun _ => ValueRef.m_value) ∧
    ValueRef.m_value.read (p.operatorAssign v w).self = v ∧
    ValueRef.m_value.read (p.operatorAssign v w).self = (p.operatorAssign v w).self.Get :=
  ⟨rfl, rfl, rfl, operatorAssign_error p v w, operatorAssign_returned p v w, rfl, rfl⟩

/-- C6. In every state of a property the conversion to `T` returns the value
that `Get()` returns. -/
theorem C6_conversion_is_Get (p : Property T W E) (w : W) :
    (p.operatorT w).result = .ok p.Get ∧ (p.operatorT w).returned = some p.Get :=
  ⟨rfl, rfl⟩

/-- C7. `Get()` and the conversion to `T` are pure reads: in every state they
return without error, leave the property (value and listeners) and the world
as they were, and call no listener.  Any sequence of reads leaves the state as
it was, and every one of them returns the same value. -/
theorem C7_reads_are_pure (p : Property T W E) (w : W) (ops : List (Op T W E))
    (hreads : ops.all Op.isRead = true) :
    ((p.callGet w).self = p ∧ (p.callGet w).world = w ∧ (p.callGet w).calls = [] ∧
      (p.callGet w).result = .ok p.m_value) ∧
    ((p.operatorT w).self = p ∧ (p.operatorT w).world = w ∧ (p.operatorT w).calls = [] ∧
      (p.operatorT w).result = .ok p.m_value) ∧
    (run ops (p, w)).1 = (p, w) ∧
    (run ops (p, w)).2
      = ops.map (fun _ => { calls := [], error := none, value := some p.m_value,
                            handle := none }) := by
  refine ⟨⟨rfl, rfl, rfl, rfl⟩, ⟨rfl, rfl, rfl, rfl⟩, ?_⟩
  induction ops with
  | nil => exact ⟨rfl, rfl⟩
  | cons op ops ih =>
    simp only [List.all_cons, Bool.and_eq_true] at hreads
    obtain ⟨hop, hrest⟩ := hreads
    have hstep : step op (p, w)
        = ((p, w), { calls := [], error := none, value := some p.m_value, handle := none }) := by
      cases op <;> first | rfl | simp [Op.isRead] at hop
    obtain ⟨ih1, ih2⟩ := ih hrest
    constructor
    · show (run ops (step op (p, w)).1).1 = (p, w)
      rw [hstep]
      exact ih1
    · show (step op (p, w)).2 :: (run ops (step op (p, w)).1).2 = _
      rw [hstep, List.map_cons]
      simp only
      rw [ih2]

/-- C7, at a property with a recording listener, read three times. -/
theorem C7_reads_are_pure_witness :
    ([Op.get, Op.convert, Op.get] : List (Op Nat (List Nat) Nat)).all Op.isRead = true ∧
    (run [Op.get, Op.convert, Op.get]
        (((Property.ctor 5 : Property Nat (List Nat) Nat).attach recorder).1, [1])).1
      = (((Property.ctor 5 : Property Nat (List Nat) Nat).attach recorder).1, [1]) ∧
    (run [Op.get, Op.convert, Op.get]
        (((Property.ctor 5 : Property Nat (List Nat) Nat).attach recorder).1, [1])).2.map
          (fun o => o.value)
      = [some 5, some 5, some 5] :=
  ⟨rfl,
   (C7_reads_are_pure ((Property.ctor 5 : Property Nat (List Nat) Nat).attach recorder).1 [1]
      [Op.get, Op.convert, Op.get] rfl).2.2.1,
   rfl⟩

/-- C8. `Set(v)` ends with the error `e` exactly when the delivery reaches a
registered listener that raises `e` when called with `v`, the listeners before
it having returned: the error that reaches the caller is the listener's own.
With no listener, or with listeners that never fail on `v`, `Set(v)` returns;
and when failing does not depend on the world, `Set(v)` fails exactly when some
registered listener fails on `v`. -/
theorem C8_set_fails_iff_listener_fails (p : Property T W E) (v : T) (w : W) (e : E) :
    ((p.Set v w).result = .error e ↔
      ∃ pre h cb post, p.OnValueChanged.listeners = pre ++ (h, cb) :: post ∧
        (deliver pre v w).error = none ∧ (cb v (deliver pre v w).world).2 = some e) ∧
    (p.OnValueChanged.listeners = [] → (p.Set v w).result = .ok ()) ∧
    ((∀ cb ∈ p.OnValueChanged.callbacks, ∀ w1, (cb v w1).2 = none) →
      (p.Set v w).result = .ok ()) ∧
    ((∀ cb ∈ p.OnValueChanged.callbacks, ∀ w1 w2, (cb v w1).2 = (cb v w2).2) →
      ((p.Set v w).error ≠ none ↔ ∃ cb ∈ p.OnValueChanged.callbacks, (cb v w).2 ≠ none)) := by
  refine ⟨?_, ?_, ?_, ?_⟩
  · rw [Set_result_error_iff]
    exact deliver_error_iff _ v w e
  · intro hnil
    rw [Set_result_ok_iff, hnil]
    rfl
  · intro hnf
    rw [Set_result_ok_iff]
    apply deliver_ok_of_never_failing
    intro l hl w1
    exact hnf l.2 (List.mem_map_of_mem Prod.snd hl) w1
  · intro hindep
    rw [Set_error]
    constructor
    · intro hne
      obtain ⟨e1, he1⟩ := Option.ne_none_iff_exists'.mp hne
      obtain ⟨pre, h, cb, post, hsplit, _, hfail⟩ := (deliver_error_iff _ v w e1).mp he1
      refine ⟨cb, ?_, ?_⟩
      · unfold Event.callbacks
        rw [hsplit]
        simp
      · rw [hindep cb (by unfold Event.callbacks; rw [hsplit]; simp) w (deliver pre v w).world,
          hfail]
        simp
    · rintro ⟨cb, hcb, hfail⟩
      intro hnone
      apply hfail
      -- a delivery without error ran every callback without error
      have hall : ∀ (ls : List (ListenerID × Callback T W E)) (w0 : W),
          (deliver ls v w0).error = none → ∀ l ∈ ls, ∃ w1, (l.2 v w1).2 = none := by
        intro ls
        induction ls with
        | nil => intro _ _ l hl; simp at hl
        | cons l0 rest ih =>
          intro w0 hok l hl
          obtain ⟨h0, cb0⟩ := l0
          cases hf : (cb0 v w0).2 with
          | some e0 =>
            rw [deliver_cons_fail h0 cb0 rest v w0 e0 hf] at hok
            simp at hok
          | none =>
            rw [deliver_cons_ok h0 cb0 rest v w0 hf] at hok
            rcases List.mem_cons.mp hl with rfl | hl
            · exact ⟨w0, hf⟩
            · exact ih _ hok l hl
      unfold Event.callbacks at hcb
      obtain ⟨l, hl, rfl⟩ := List.mem_map.mp hcb
      obtain ⟨w1, hw1⟩ := hall _ w hnone l hl
      rw [hindep l.2 (List.mem_map_of_mem Prod.snd hl) w w1]
      exact hw1

end OvEditor.Settings.EditorSettings

/-! ## Notification -/

namespace OvEditor.Settings.EditorSettings

open OvTools.Eventing

variable {T W E : Type}

/-- C8, at a listener that raises the error 42 on the value 2: `Set(2)` ends
with the error 42. -/
theorem C8_set_fails_iff_listener_fails_witness :
    (((Property.ctor 0 : Property Nat (List Nat) Nat).attach (failsOn 2 42)).1.Set 2 []).result
      = .error 42 :=
  (C8_set_fails_iff_listener_fails
      ((Property.ctor 0 : Property Nat (List Nat) Nat).attach (failsOn 2 42)).1 2 [] 42).1.mpr
    ⟨[], 0, failsOn 2 42, [], rfl, rfl, rfl⟩

theorem map_fst_zip_range {α : Type} (n : Nat) (cbs : List α) :
    ((List.range' n cbs.length).zip cbs).map Prod.fst = List.range' n cbs.length :=
  List.map_fst_zip _ _ (by simp)

theorem map_snd_zip_range {α : Type} (n : Nat) (cbs : List α) :
    ((List.range' n cbs.length).zip cbs).map Prod.snd = cbs :=
  List.map_snd_zip _ _ (by simp)

/-- The calls of a `Set` that returns, after `attachAll`. -/
theorem attachAll_Set_calls (p : Property T W E) (cbs : List (Callback T W E)) (v : T) (w : W)
    (hok : ((p.attachAll cbs).1.Set v w).error = none) :
    ((p.attachAll cbs).1.Set v w).calls
      = (p.OnValueChanged.handles ++ (p.attachAll cbs).2).map (fun h => (h, v)) := by
  rw [Set_error] at hok
  rw [Set_calls, deliver_calls_of_ok _ v w hok, attachAll_listeners, attachAll_handles]
  simp only [Event.handles, List.map_append, List.map_map]
  congr 1
  have hmap : ∀ zs : List (ListenerID × Callback T W E),
      zs.map (fun l => (l.1, v)) = (zs.map Prod.fst).map (fun h => (h, v)) := by
    intro zs
    rw [List.map_map]
    rfl
  rw [hmap, map_fst_zip_range]

/-- C2 as stated fails.  Two listeners are attached to a new property, the
first of which raises an error; they receive the handles 0 and 1.  `Set(7)`
calls the listener 0 only: the listener 1 is called zero times, not once, and
its record stays empty. -/
theorem C2_counterexample :
    ((Property.ctor 0 : Property Nat (List Nat) Nat).attachAll [alwaysFails 13, recorder]).2
      = [0, 1] ∧
    ((((Property.ctor 0 : Property Nat (List Nat) Nat).attachAll
        [alwaysFails 13, recorder]).1.Set 7 []).calls.map Prod.fst).count 1 = 0 ∧
    (((Property.ctor 0 : Property Nat (List Nat) Nat).attachAll
        [alwaysFails 13, recorder]).1.Set 7 []).world = [] := by
  decide

/-- C2, amended.  In every reachable state of a property, after attaching the
`N` listeners `cbs`, a call `Set(v)` that returns (no listener raised an error)
has called each of the `N` listeners exactly once, in attachment order, each
with `v`, after the listeners attached earlier; the world `Set` returns in is
the one all these callbacks have left. -/
theorem C2_set_notifies_each_listener_once (p : Property T W E) (hp : Reachable p)
    (cbs : List (Callback T W E)) (v : T) (w : W)
    (hok : ((p.attachAll cbs).1.Set v w).error = none) :
    (p.attachAll cbs).2.length = cbs.length ∧
    (p.attachAll cbs).2.Nodup ∧
    ((p.attachAll cbs).1.Set v w).calls
      = (p.OnValueChanged.handles ++ (p.attachAll cbs).2).map (fun h => (h, v)) ∧
    (∀ h ∈ (p.attachAll cbs).2,
      (((p.attachAll cbs).1.Set v w).calls.map Prod.fst).count h = 1) ∧
    ((p.attachAll cbs).1.Set v w).calls.filter (fun c => decide (c.1 ∈ (p.attachAll cbs).2))
      = (p.attachAll cbs).2.map (fun h => (h, v)) ∧
    ((p.attachAll cbs).1.Set v w).world
      = runCallbacks (p.OnValueChanged.callbacks ++ cbs) v w := by
  have hcalls := attachAll_Set_calls p cbs v w hok
  obtain ⟨hnd, hlt⟩ := hp.WF
  have hhs := attachAll_handles p cbs
  have hfresh : ∀ h ∈ (p.attachAll cbs).2, h ∉ p.OnValueChanged.handles := by
    intro h hh hmem
    rw [hhs, List.mem_range'_1] at hh
    exact Nat.lt_irrefl _ (Nat.lt_of_lt_of_le (hlt h hmem) hh.1)
  have hnd2 : (p.attachAll cbs).2.Nodup := by
    rw [hhs]
    exact List.nodup_range' _ _
  have hall : (p.OnValueChanged.handles ++ (p.attachAll cbs).2).Nodup := by
    rw [List.nodup_append]
    exact ⟨hnd, hnd2, fun a ha hb => hfresh a hb ha⟩
  refine ⟨by rw [hhs]; simp, hnd2, hcalls, ?_, ?_, ?_⟩
  · intro h hh
    rw [hcalls, List.map_map]
    have : (Prod.fst ∘ fun h : ListenerID => (h, v)) = id := rfl
    rw [this, List.map_id]
    exact List.count_eq_one_of_mem hall (List.mem_append_right _ hh)
  · rw [hcalls, List.map_append, List.filter_append]
    have h1 : (p.OnValueChanged.handles.map (fun h => (h, v))).filter
        (fun c => decide (c.1 ∈ (p.attachAll cbs).2)) = [] := by
      rw [List.filter_eq_nil_iff]
      intro c hc
      obtain ⟨h, hh, rfl⟩ := List.mem_map.mp hc
      simpa using fun hmem => hfresh h hmem hh
    have h2 : ((p.attachAll cbs).2.map (fun h => (h, v))).filter
        (fun c => decide (c.1 ∈ (p.attachAll cbs).2)) = (p.attachAll cbs).2.map (fun h => (h, v)) := by
      rw [List.filter_eq_self]
      intro c hc
      obtain ⟨h, hh, rfl⟩ := List.mem_map.mp hc
      simpa using hh
    rw [h1, h2, List.nil_append]
  · rw [Set_error] at hok
    rw [Set_world, deliver_world_of_ok _ v w hok, attachAll_listeners, hhs]
    simp only [Event.callbacks, List.map_append]
    rw [map_snd_zip_range]

/-- C2 amended, at a new property with two recording listeners and `Set(7)`:
the calls are to the handles 0 and 1, in that order, each with 7. -/
theorem C2_set_notifies_each_listener_once_witness :
    ((Property.ctor 0 : Property Nat (List Nat) Nat).attachAll [recorder, failsOn 9 13]).2
      = [0, 1] ∧
    (((Property.ctor 0 : Property Nat (List Nat) Nat).attachAll
        [recorder, failsOn 9 13]).1.Set 7 []).calls = [(0, 7), (1, 7)] :=
  ⟨rfl,
   (C2_set_notifies_each_listener_once (Property.ctor 0 : Property Nat (List Nat) Nat)
      (Reachable.ctor 0 []) [recorder, failsOn 9 13] 7 [] rfl).2.2.1⟩

end OvEditor.Settings.EditorSettings

/-! ## Records, failures and the stored value -/

namespace OvEditor.Settings.EditorSettings

open OvTools.Eventing

variable {T W E : Type}

/-- Callbacks that leave a part of the world alone leave it alone when run one
after the other. -/
theorem runCallbacks_frame {R : Type} (view : W → R) (cbs : List (Callback T W E)) (v : T)
    (w : W) (hframe : ∀ cb ∈ cbs, ∀ u w1, view (cb u w1).1 = view w1) :
    view (runCallbacks cbs v w) = view w := by
  induction cbs generalizing w with
  | nil => rfl
  | cons cb cbs ih =>
    show view (runCallbacks cbs v (cb v w).1) = view w
    rw [ih _ (fun c hc => hframe c (List.mem_cons_of_mem _ hc)), hframe cb (List.mem_cons_self _ _)]

theorem runCallbacks_append (xs ys : List (Callback T W E)) (v : T) (w : W) :
    runCallbacks (xs ++ ys) v w = runCallbacks ys v (runCallbacks xs v w) := by
  simp [runCallbacks, List.foldl_append]

/-- A sequence of `Set` calls, each of which returns, on a property whose last
listener keeps a record and whose other listeners leave the record alone: the
record grows by the values set, in order. -/
theorem run_setAll_record (view : W → List T) (rec0 : Callback T W E)
    (hrec : ∀ v w, view (rec0 v w).1 = view w ++ [v])
    (others : List (ListenerID × Callback T W E)) (h : ListenerID)
    (hothers : ∀ cb ∈ others.map Prod.snd, ∀ v w, view (cb v w).1 = view w)
    (vs : List T) (q : Property T W E) (w : W)
    (hq : q.OnValueChanged.listeners = others ++ [(h, rec0)])
    (hok : ∀ o ∈ (run (setAll vs) (q, w)).2, o.error = none) :
    view (run (setAll vs) (q, w)).1.2 = view w ++ vs := by
  induction vs generalizing q w with
  | nil => simp [setAll, run]
  | cons v vs ih =>
    have hhead : (q.Set v w).error = none := hok _ (List.mem_cons_self _ _)
    have htail : ∀ o ∈ (run (setAll vs) ((q.Set v w).self, (q.Set v w).world)).2,
        o.error = none := fun o ho => hok o (List.mem_cons_of_mem _ ho)
    show view (run (setAll vs) ((q.Set v w).self, (q.Set v w).world)).1.2 = _
    rw [ih (q.Set v w).self (q.Set v w).world hq htail]
    rw [Set_error] at hhead
    rw [Set_world, deliver_world_of_ok _ v w hhead, hq, List.map_append, runCallbacks_append]
    simp only [List.map_cons, List.map_nil]
    show view (rec0 v (runCallbacks (others.map Prod.snd) v w)).1 ++ vs = _
    rw [hrec, runCallbacks_frame view _ v w hothers]
    simp

/-- C3 as stated fails.  `ShowGeometryBounds` has a listener that raises an
error, attached before the recording listener.  After `Set(true)` and
`Set(false)` the record is empty, not `[true, false]`. -/
theorem C3_counterexample :
    (run (setAll [true, false])
      ((((ShowGeometryBounds : Property Bool (List Bool) Nat).attach (alwaysFails 13)).1.attach
          recorder).1, [])).1.2 = [] ∧
    (run (setAll [true, false])
      ((((ShowGeometryBounds : Property Bool (List Bool) Nat).attach (alwaysFails 13)).1.attach
          recorder).1, [])).1.2 ≠ [true, false] := by
  decide

/-- C3, amended.  A recording listener is attached to a property whose other
listeners leave the record alone, and `Set` is called on each value of `vs` in
order.  If every one of these calls returns (no listener raised an error), the
record has grown by exactly `vs`, and `Get()` returns the last value of `vs`
(the value held before, when `vs` is empty). -/
theorem C3_recorder_sees_every_set (p : Property T W E) (view : W → List T)
    (rec0 : Callback T W E) (vs : List T) (w : W)
    (hrec : ∀ v w1, view (rec0 v w1).1 = view w1 ++ [v])
    (hothers : ∀ cb ∈ p.OnValueChanged.callbacks, ∀ v w1, view (cb v w1).1 = view w1)
    (hok : ∀ o ∈ (run (setAll vs) ((p.attach rec0).1, w)).2, o.error = none) :
    view (run (setAll vs) ((p.attach rec0).1, w)).1.2 = view w ++ vs ∧
    (run (setAll vs) ((p.attach rec0).1, w)).1.1.Get = vs.getLast?.getD p.Get := by
  constructor
  · exact run_setAll_record view rec0 hrec p.OnValueChanged.listeners
      p.OnValueChanged.nextHandle hothers vs (p.attach rec0).1 w rfl hok
  · show (run (setAll vs) ((p.attach rec0).1, w)).1.1.m_value = _
    rw [run_value, lastSetArg_setAll]
    rfl

/-- C3 amended, at the scenario of the spec: `ShowGeometryBounds` (default
`false`) with a recording listener; after `Set(true)` and `Set(false)` the
record is `[true, false]` and `Get()` returns `false`. -/
theorem C3_recorder_sees_every_set_witness :
    (run (setAll [true, false])
      (((ShowGeometryBounds : Property Bool (List Bool) Nat).attach recorder).1, [])).1.2
      = [true, false] ∧
    (run (setAll [true, false])
      (((ShowGeometryBounds : Property Bool (List Bool) Nat).attach recorder).1, [])).1.1.Get
      = false :=
  C3_recorder_sees_every_set (ShowGeometryBounds : Property Bool (List Bool) Nat) id recorder
    [true, false] [] (fun _ _ => rfl) (by intro cb hcb; cases hcb) (by decide)

end OvEditor.Settings.EditorSettings

namespace OvEditor.Settings.EditorSettings

open OvTools.Eventing

variable {T W E : Type}

/-- C9. In a reachable state of a property whose listeners are `pre`, then the
listener `cb` with handle `h`, then `post`: if the listeners of `pre` return
when called with `v` one after the other and `cb` then raises `e`, `Set(v)`
calls the listeners of `pre` and then `cb`, exactly once each and in that
order, calls none of the listeners of `post`, and ends with the error `e` in
the world that `cb` left. -/
theorem C9_delivery_aborts_on_first_failure (p : Property T W E) (hp : Reachable p)
    (v : T) (w : W) (pre post : List (ListenerID × Callback T W E)) (h : ListenerID)
    (cb : Callback T W E) (e : E)
    (hsplit : p.OnValueChanged.listeners = pre ++ (h, cb) :: post)
    (hpre : (deliver pre v w).error = none)
    (hfail : (cb v (deliver pre v w).world).2 = some e) :
    (p.Set v w).calls = (pre ++ [(h, cb)]).map (fun l => (l.1, v)) ∧
    (∀ l ∈ pre ++ [(h, cb)], ((p.Set v w).calls.map Prod.fst).count l.1 = 1) ∧
    (∀ l ∈ post, ((p.Set v w).calls.map Prod.fst).count l.1 = 0) ∧
    (p.Set v w).result = .error e ∧
    (p.Set v w).world = (cb v (runCallbacks (pre.map Prod.snd) v w)).1 := by
  have hd := deliver_first_failure pre post h cb v w e hpre hfail
  have hcalls : (p.Set v w).calls = (pre ++ [(h, cb)]).map (fun l => (l.1, v)) := by
    rw [Set_calls, hsplit, hd]
    simp
  have hfst : (p.Set v w).calls.map Prod.fst = (pre ++ [(h, cb)]).map Prod.fst := by
    rw [hcalls, List.map_map]
    rfl
  have hnd : ((pre ++ [(h, cb)]).map Prod.fst ++ post.map Prod.fst).Nodup := by
    have := hp.WF.1
    unfold Event.handles at this
    rw [hsplit] at this
    simpa using this
  refine ⟨hcalls, ?_, ?_, ?_, ?_⟩
  · intro l hl
    rw [hfst]
    exact List.count_eq_one_of_mem (List.nodup_append.mp hnd).1 (List.mem_map_of_mem Prod.fst hl)
  · intro l hl
    rw [hfst]
    apply List.count_eq_zero_of_not_mem
    intro hmem
    exact (List.nodup_append.mp hnd).2.2 hmem (List.mem_map_of_mem Prod.fst hl)
  · rw [Set_result_error_iff, hsplit, hd]
  · rw [Set_world, hsplit, hd, deliver_world_of_ok pre v w hpre]

/-- C9, at three listeners of which the second raises the error 13 on the
value 2: `Set(2)` calls the listeners 0 and 1 and not the listener 2. -/
theorem C9_delivery_aborts_on_first_failure_witness :
    (((Property.ctor 0 : Property Nat (List Nat) Nat).attachAll
        [recorder, failsOn 2 13, recorder]).1.Set 2 []).calls = [(0, 2), (1, 2)] ∧
    (((Property.ctor 0 : Property Nat (List Nat) Nat).attachAll
        [recorder, failsOn 2 13, recorder]).1.Set 2 []).result = .error 13 ∧
    (((Property.ctor 0 : Property Nat (List Nat) Nat).attachAll
        [recorder, failsOn 2 13, recorder]).1.Set 2 []).world = [2, 2] :=
  have h := C9_delivery_aborts_on_first_failure
    ((Property.ctor 0 : Property Nat (List Nat) Nat).attachAll
      [recorder, failsOn 2 13, recorder]).1
    ⟨0, [Op.attach recorder, Op.attach (failsOn 2 13), Op.attach recorder], [], rfl⟩
    2 [] [(0, recorder)] [(2, recorder)] 1 (failsOn 2 13) 13 rfl rfl rfl
  ⟨h.1, h.2.2.2.1, h.2.2.2.2⟩

theorem zip_filterMap_of_ok (ops : List (Op T W E)) (obs : List (Obs T E))
    (hlen : obs.length = ops.length) (hok : ∀ o ∈ obs, o.error = none) :
    (ops.zip obs).filterMap (fun x => if x.2.error.isNone then x.1.setArg else none)
      = ops.filterMap Op.setArg := by
  induction ops generalizing obs with
  | nil => simp
  | cons op ops ih =>
    cases obs with
    | nil => simp at hlen
    | cons o obs =>
      have ho : o.error = none := hok o (List.mem_cons_self _ _)
      have hrest := ih obs (by simpa using hlen) (fun o1 h1 => hok o1 (List.mem_cons_of_mem _ h1))
      simp only [List.zip_cons_cons, List.filterMap_cons, ho, Option.isNone_none, if_true]
      rw [hrest]

theorem run_obs_length (ops : List (Op T W E)) (s : Property T W E × W) :
    (run ops s).2.length = ops.length := by
  induction ops generalizing s with
  | nil => rfl
  | cons op ops ih =>
    show ((step op s).2 :: (run ops (step op s).1).2).length = _
    simp [ih]

/-- C10 as stated fails.  A property is constructed with 0 and has a listener
that raises an error on the value 2.  `Set(1)` returns and `Set(2)` ends with
an error.  The most recent successful `Set` was `Set(1)`, but the stored value
is 2. -/
theorem C10_counterexample :
    (run [Op.attach (failsOn 2 13), Op.set 1, Op.set 2]
        ((Property.ctor 0 : Property Nat (List Nat) Nat), [])).2.map (fun o => o.error)
      = [none, none, some 13] ∧
    lastSuccessfulSetArg [Op.attach (failsOn 2 13), Op.set 1, Op.set 2]
        (run [Op.attach (failsOn 2 13), Op.set 1, Op.set 2]
          ((Property.ctor 0 : Property Nat (List Nat) Nat), [])).2 = some 1 ∧
    (run [Op.attach (failsOn 2 13), Op.set 1, Op.set 2]
        ((Property.ctor 0 : Property Nat (List Nat) Nat), [])).1.1.m_value = 2 := by
  decide

/-- C10, amended.  After any sequence of operations on a property constructed
with `d` (attachments, detachments, reads, `Set` and `operator=` calls, some of
which may end with an error because a listener failed) the stored value is the
argument of the most recent `Set` call, whether that call returned or ended
with an error, or `d` if `Set` was never called.  When no call ended with an
error, this is the argument of the most recent successful `Set` call. -/
theorem C10_value_is_last_set_argument (d : T) (ops : List (Op T W E)) (w : W) :
    (run ops ((Property.ctor d : Property T W E), w)).1.1.m_value = (lastSetArg ops).getD d ∧
    ((∀ o ∈ (run ops ((Property.ctor d : Property T W E), w)).2, o.error = none) →
      (run ops ((Property.ctor d : Property T W E), w)).1.1.m_value
        = (lastSuccessfulSetArg ops
            (run ops ((Property.ctor d : Property T W E), w)).2).getD d) := by
  have hval : (run ops ((Property.ctor d : Property T W E), w)).1.1.m_value
      = (lastSetArg ops).getD d := run_value ops ((Property.ctor d : Property T W E), w)
  refine ⟨hval, ?_⟩
  intro hok
  rw [hval]
  unfold lastSuccessfulSetArg lastSetArg
  rw [zip_filterMap_of_ok ops _ (run_obs_length ops _) hok]

end OvEditor.Settings.EditorSettings

/-! ## Detachment -/

namespace OvEditor.Settings.EditorSettings

open OvTools.Eventing

variable {T W E : Type}

/-- A delivery calls attached listeners only. -/
theorem deliver_calls_attached (ls : List (ListenerID × Callback T W E)) (v : T) (w : W) :
    ∀ c ∈ (deliver ls v w).calls, c.1 ∈ ls.map Prod.fst := by
  induction ls generalizing w with
  | nil => intro c hc; simp [deliver] at hc
  | cons l rest ih =>
    obtain ⟨h, cb⟩ := l
    intro c hc
    cases hf : (cb v w).2 with
    | some e =>
      rw [deliver_cons_fail h cb rest v w e hf] at hc
      simp only [List.mem_singleton] at hc
      subst hc
      simp
    | none =>
      rw [deliver_cons_ok h cb rest v w hf] at hc
      rcases List.mem_cons.mp hc with rfl | hc
      · simp
      · exact List.mem_cons_of_mem _ (ih _ c hc)

theorem detach_handles (ev : Event T W E) (h : ListenerID) :
    (ev.detach h).handles = ev.handles.filter (fun k => k != h) := by
  simp only [Event.detach, Event.handles, List.filter_map]
  rfl

/-- A handle that has been issued and is not attached stays so through one
operation of a client, and that operation makes no call with it. -/
theorem step_retired (op : Op T W E) (s : Property T W E × W) (h : ListenerID)
    (hlt : h < s.1.OnValueChanged.nextHandle) (hout : h ∉ s.1.OnValueChanged.handles) :
    h < (step op s).1.1.OnValueChanged.nextHandle ∧
    h ∉ (step op s).1.1.OnValueChanged.handles ∧
    h ∉ (step op s).2.calls.map Prod.fst := by
  have hset : ∀ v, h ∉ (s.1.Set v s.2).calls.map Prod.fst := by
    intro v hmem
    obtain ⟨c, hc, rfl⟩ := List.mem_map.mp hmem
    exact hout (deliver_calls_attached _ v s.2 c hc)
  cases op with
  | attach cb =>
    refine ⟨Nat.lt_succ_of_lt hlt, ?_, by simp [step]⟩
    show h ∉ (s.1.OnValueChanged.attach cb).1.handles
    simp only [Event.attach, Event.handles, List.map_append, List.map_cons, List.map_nil,
      List.mem_append, List.mem_singleton, not_or]
    exact ⟨hout, Nat.ne_of_lt hlt⟩
  | detach k =>
    refine ⟨hlt, ?_, by simp [step]⟩
    show h ∉ (s.1.OnValueChanged.detach k).handles
    rw [detach_handles]
    exact fun hmem => hout (List.mem_of_mem_filter hmem)
  | set v => exact ⟨hlt, hout, hset v⟩
  | assign v => exact ⟨hlt, hout, hset v⟩
  | get => exact ⟨hlt, hout, by simp [step, Property.callGet]⟩
  | convert => exact ⟨hlt, hout, by simp [step, Property.operatorT]⟩

theorem run_retired (ops : List (Op T W E)) (s : Property T W E × W) (h : ListenerID)
    (hlt : h < s.1.OnValueChanged.nextHandle) (hout : h ∉ s.1.OnValueChanged.handles) :
    ∀ o ∈ (run ops s).2, h ∉ o.calls.map Prod.fst := by
  induction ops generalizing s with
  | nil => intro o ho; simp [run] at ho
  | cons op ops ih =>
    obtain ⟨h1, h2, h3⟩ := step_retired op s h hlt hout
    intro o ho
    rcases List.mem_cons.mp ho with rfl | ho
    · exact h3
    · exact ih (step op s).1 h1 h2 o ho

/-- The next handle of a property never decreases. -/
theorem step_nextHandle (op : Op T W E) (s : Property T W E × W) :
    s.1.OnValueChanged.nextHandle ≤ (step op s).1.1.OnValueChanged.nextHandle := by
  cases op with
  | attach cb => exact Nat.le_succ _
  | detach k => exact Nat.le_refl _
  | set v => exact Nat.le_refl _
  | assign v => exact Nat.le_refl _
  | get => exact Nat.le_refl _
  | convert => exact Nat.le_refl _

theorem run_nextHandle (ops : List (Op T W E)) (s : Property T W E × W) :
    s.1.OnValueChanged.nextHandle ≤ (run ops s).1.1.OnValueChanged.nextHandle := by
  induction ops generalizing s with
  | nil => exact Nat.le_refl _
  | cons op ops ih => exact Nat.le_trans (step_nextHandle op s) (ih (step op s).1)

theorem detach_not_attached (ev : Event T W E) (h : ListenerID) :
    h ∉ (ev.detach h).handles := by
  rw [detach_handles]
  intro hmem
  have := List.of_mem_filter hmem
  simp at this

/-- The calls of a `Set` that returns: every attached listener, in attachment
order, with the value set. -/
theorem Set_calls_of_ok (p : Property T W E) (v : T) (w : W)
    (hok : (p.Set v w).error = none) :
    (p.Set v w).calls = p.OnValueChanged.handles.map (fun k => (k, v)) := by
  rw [Set_error] at hok
  rw [Set_calls, deliver_calls_of_ok _ v w hok]
  simp [Event.handles, List.map_map]

/-- In a state where handles are in order, a `Set` that returns has called
every attached listener exactly once. -/
theorem Set_count_of_ok (p : Property T W E) (hwf : p.OnValueChanged.WF) (v : T) (w : W)
    (hok : (p.Set v w).error = none) :
    ∀ k ∈ p.OnValueChanged.handles, ((p.Set v w).calls.map Prod.fst).count k = 1 := by
  intro k hk
  rw [Set_calls_of_ok p v w hok, List.map_map]
  have : (Prod.fst ∘ fun k : ListenerID => (k, v)) = id := rfl
  rw [this, List.map_id]
  exact List.count_eq_one_of_mem hwf.1 hk

end OvEditor.Settings.EditorSettings

namespace OvEditor.Settings.EditorSettings

open OvTools.Eventing

variable {T W E : Type}

/-- C11 as stated fails.  Three listeners are attached to a new property, the
first of which raises an error; they receive the handles 0, 1 and 2.  The
listener 2 is detached.  The listener 1 is still attached, but `Set(7)` calls
it zero times, not once: the delivery ends at the listener 0. -/
theorem C11_counterexample :
    (((Property.ctor 0 : Property Nat (List Nat) Nat).attachAll
        [alwaysFails 13, recorder, recorder]).1.detach 2).OnValueChanged.handles = [0, 1] ∧
    (((((Property.ctor 0 : Property Nat (List Nat) Nat).attachAll
        [alwaysFails 13, recorder, recorder]).1.detach 2).Set 7 []).calls.map Prod.fst).count 1
      = 0 := by
  decide

/-- C11, amended.  In a reachable state of a property a listener is attached
and receives the handle `h`; after any further operations `ops1` it is
detached.  Then no call is made with `h` by any operation of any continuation
`ops2`, whatever `Set` calls it holds.  And a `Set(v)` on the state after the
detachment, if it returns (no listener raised an error), has called the
listeners that are still attached, in attachment order, exactly once each with
`v`, and has not called `h`. -/
theorem C11_detached_listener_is_not_invoked (p : Property T W E) (hp : Reachable p)
    (cb : Callback T W E) (ops1 ops2 : List (Op T W E)) (w0 : W) (v : T) (w : W) :
    let h := (p.attach cb).2
    let q0 := (run ops1 ((p.attach cb).1, w0)).1
    let q := q0.1.detach h
    (∀ o ∈ (run ops2 (q, q0.2)).2, h ∉ o.calls.map Prod.fst) ∧
    ((q.Set v w).error = none →
      (q.Set v w).calls
        = (q0.1.OnValueChanged.handles.filter (fun k => k != h)).map (fun k => (k, v)) ∧
      (∀ k ∈ q0.1.OnValueChanged.handles, k ≠ h →
        ((q.Set v w).calls.map Prod.fst).count k = 1) ∧
      ((q.Set v w).calls.map Prod.fst).count h = 0) := by
  intro h q0 q
  have hlt0 : h < (p.attach cb).1.OnValueChanged.nextHandle := Nat.lt_succ_self _
  have hlt1 : h < q0.1.OnValueChanged.nextHandle :=
    Nat.lt_of_lt_of_le hlt0 (run_nextHandle ops1 ((p.attach cb).1, w0))
  have hout : h ∉ q.OnValueChanged.handles := detach_not_attached _ h
  have hwf : q.OnValueChanged.WF :=
    Event.WF_detach _ h (run_WF ops1 ((p.attach cb).1, w0) (Event.WF_attach _ cb hp.WF))
  have hhandles : q.OnValueChanged.handles
      = q0.1.OnValueChanged.handles.filter (fun k => k != h) := detach_handles _ h
  refine ⟨run_retired ops2 (q, q0.2) h hlt1 hout, ?_⟩
  intro hok
  have hcalls := Set_calls_of_ok q v w hok
  refine ⟨by rw [hcalls, hhandles], ?_, ?_⟩
  · intro k hk hne
    apply Set_count_of_ok q hwf v w hok
    rw [hhandles]
    exact List.mem_filter.mpr ⟨hk, by simpa using hne⟩
  · apply List.count_eq_zero_of_not_mem
    rw [hcalls, List.map_map]
    have : (Prod.fst ∘ fun k : ListenerID => (k, v)) = id := rfl
    rw [this, List.map_id]
    exact hout

/-- C11 amended, at a new property: a recording listener is attached (handle
0), then a second one (handle 1), the first is detached, and `Set` is called
twice.  No call is made with the handle 0, and `Set(7)` calls the listener 1
once. -/
theorem C11_detached_listener_is_not_invoked_witness :
    (∀ o ∈ (run [Op.set 7, Op.set 8]
        ((run [Op.attach recorder]
            (((Property.ctor 0 : Property Nat (List Nat) Nat).attach recorder).1, [])).1.1.detach 0,
          [])).2,
      0 ∉ o.calls.map Prod.fst) ∧
    (((run [Op.attach recorder]
        (((Property.ctor 0 : Property Nat (List Nat) Nat).attach recorder).1, [])).1.1.detach
          0).Set 7 []).calls = [(1, 7)] :=
  have h := C11_detached_listener_is_not_invoked (Property.ctor 0 : Property Nat (List Nat) Nat)
    (Reachable.ctor 0 []) recorder [Op.attach recorder] [Op.set 7, Op.set 8] [] 7 []
  ⟨h.1, (h.2 rfl).1⟩

end OvEditor.Settings.EditorSettings

/-! ## Setting the value already held -/

namespace OvEditor.Settings.EditorSettings

open OvTools.Eventing

variable {T W E : Type}

/-- C13 as stated fails.  A property holds 7 and has two listeners, the first
of which raises an error.  `Set(7)` calls the listener 0 and ends there: the
registered listener 1 is called zero times, not once. -/
theorem C13_counterexample :
    ((Property.ctor 7 : Property Nat (List Nat) Nat).attachAll
        [alwaysFails 13, recorder]).1.Get = 7 ∧
    ((Property.ctor 7 : Property Nat (List Nat) Nat).attachAll
        [alwaysFails 13, recorder]).1.OnValueChanged.handles = [0, 1] ∧
    ((((Property.ctor 7 : Property Nat (List Nat) Nat).attachAll
        [alwaysFails 13, recorder]).1.Set 7 []).calls.map Prod.fst).count 1 = 0 := by
  decide

/-- C13, amended.  `Set` performs no change detection.  In a reachable state
of a property that already holds `v`, the call `Set(v)` leaves the property as
it is and does all that `Set(v)` does from a state that holds any other value
`u`: the same calls, the same world, the same result.  If it returns (no
listener raised an error), it has called every registered listener, in
attachment order, exactly once with `v`. -/
theorem C13_set_of_held_value_notifies (p : Property T W E) (hp : Reachable p) (v : T) (w : W)
    (hheld : p.Get = v) :
    (p.Set v w).self = p ∧
    (∀ u : T, ({ p with m_value := u } : Property T W E).Set v w = p.Set v w) ∧
    ((p.Set v w).error = none →
      (p.Set v w).calls = p.OnValueChanged.handles.map (fun k => (k, v)) ∧
      (∀ k ∈ p.OnValueChanged.handles, ((p.Set v w).calls.map Prod.fst).count k = 1) ∧
      (p.Set v w).world = runCallbacks p.OnValueChanged.callbacks v w) := by
  refine ⟨?_, fun _ => rfl, ?_⟩
  · obtain ⟨ev, x⟩ := p
    simp only [Property.Get] at hheld
    subst hheld
    rfl
  · intro hok
    refine ⟨Set_calls_of_ok p v w hok, Set_count_of_ok p hp.WF v w hok, ?_⟩
    rw [Set_error] at hok
    rw [Set_world, deliver_world_of_ok _ v w hok]
    rfl

/-- C13 amended, at a property that holds 7 and has a recording listener:
`Set(7)` calls the listener once with 7, and the record shows it. -/
theorem C13_set_of_held_value_notifies_witness :
    (((Property.ctor 7 : Property Nat (List Nat) Nat).attach recorder).1.Set 7 []).calls
      = [(0, 7)] ∧
    (((Property.ctor 7 : Property Nat (List Nat) Nat).attach recorder).1.Set 7 []).world = [7] :=
  have h := C13_set_of_held_value_notifies
    ((Property.ctor 7 : Property Nat (List Nat) Nat).attach recorder).1
    ⟨7, [Op.attach recorder], [], rfl⟩ 7 [] rfl
  ⟨(h.2.2 rfl).1, (h.2.2 rfl).2.2⟩

end OvEditor.Settings.EditorSettings

/-! ## The registry -/

namespace OvEditor.Settings.EditorSettings

open OvTools.Eventing

variable {T W E : Type}

/-- C14. After static initialisation, before any `Set` or `Load`, `Get()` on
each member of the registry returns the default it is declared with:
`false`, `false`, `true`, `true`, `false` for the five booleans, a half, a
half, one, fifteen and one for the five floats, the integer of
`EStyle::DEFAULT_DARK` for `ColorTheme`, 500 for `ConsoleMaxLogs` and the
integer of `EFontSize::DEFAULT` for `FontSize`.  The registry has these
thirteen members and no other, and none of them has a listener yet. -/
theorem C14_initial_defaults (en : Enumerators) :
    ((Registry.initial en : Registry W E).prop .ShowGeometryBounds).Get = false ∧
    ((Registry.initial en : Registry W E).prop .ShowLightBounds).Get = false ∧
    ((Registry.initial en : Registry W E).prop .EditorFrustumGeometryCulling).Get = true ∧
    ((Registry.initial en : Registry W E).prop .EditorFrustumLightCulling).Get = true ∧
    ((Registry.initial en : Registry W E).prop .DebugFrustumCulling).Get = false ∧
    ((Registry.initial en : Registry W E).prop .LightBillboardScale).Get = (1 / 2 : ℚ) ∧
    ((Registry.initial en : Registry W E).prop .ReflectionProbeScale).Get = (1 / 2 : ℚ) ∧
    ((Registry.initial en : Registry W E).prop .TranslationSnapUnit).Get = (1 : ℚ) ∧
    ((Registry.initial en : Registry W E).prop .RotationSnapUnit).Get = (15 : ℚ) ∧
    ((Registry.initial en : Registry W E).prop .ScalingSnapUnit).Get = (1 : ℚ) ∧
    ((Registry.initial en : Registry W E).prop .ColorTheme).Get = en.DEFAULT_DARK ∧
    ((Registry.initial en : Registry W E).prop .ConsoleMaxLogs).Get = (500 : Int) ∧
    ((Registry.initial en : Registry W E).prop .FontSize).Get = en.DEFAULT ∧
    Setting.all.length = 13 ∧ Setting.all.Nodup ∧ (∀ s : Setting, s ∈ Setting.all) ∧
    (∀ s : Setting, ((Registry.initial en : Registry W E).prop s).OnValueChanged.listeners = []) := by
  refine ⟨rfl, rfl, rfl, rfl, rfl, ?_, ?_, ?_, ?_, ?_, rfl, rfl, rfl, rfl, by decide, ?_, ?_⟩
  · show (0.5 : ℚ) = 1 / 2
    norm_num
  · show (0.5 : ℚ) = 1 / 2
    norm_num
  · show (1.0 : ℚ) = 1
    norm_num
  · show (15.0 : ℚ) = 15
    norm_num
  · show (1.0 : ℚ) = 1
    norm_num
  · intro s
    cases s <;> decide
  · intro s
    cases s <;> rfl

/-- C15. In every state of the registry, `Set(v)` on the member `s` leaves
every other member `s'` as it was, stored value and listener list, and calls
none of its listeners; the calls it makes and the world it leaves are those of
`Set(v)` on the member `s` alone. -/
theorem C15_set_leaves_other_members (reg : Registry W E) (s s' : Setting) (v : s.valueType)
    (w : W) (hne : s' ≠ s) :
    (reg.Set s v w).reg.prop s' = reg.prop s' ∧
    ((reg.Set s v w).reg.prop s').Get = (reg.prop s').Get ∧
    ((reg.Set s v w).reg.prop s').OnValueChanged.listeners
      = (reg.prop s').OnValueChanged.listeners ∧
    (reg.Set s v w).calls s' = [] ∧
    (reg.Set s v w).calls s = ((reg.prop s).Set v w).calls ∧
    (reg.Set s v w).world = ((reg.prop s).Set v w).world ∧
    (reg.Set s v w).error = ((reg.prop s).Set v w).error ∧
    (reg.Set s v w).reg.prop s = ((reg.prop s).Set v w).self := by
  have hother : (reg.Set s v w).reg.prop s' = reg.prop s' := by
    simp only [Registry.Set, Registry.put]
    exact Function.update_noteq hne _ _
  refine ⟨hother, by rw [hother], by rw [hother], ?_, ?_, rfl, rfl, ?_⟩
  · simp only [Registry.Set]
    exact Function.update_noteq hne _ _
  · simp only [Registry.Set]
    exact Function.update_same _ _ _
  · simp only [Registry.Set, Registry.put]
    exact Function.update_same _ _ _

/-- C15, at the initial registry with a recording listener on
`ShowLightBounds`: `Set(true)` on `ShowGeometryBounds` makes no call on
`ShowLightBounds`, which still holds `false`, and the record stays empty. -/
theorem C15_set_leaves_other_members_witness :
    (((Registry.initial ⟨0, 0⟩ : Registry (List Bool) Nat).attach .ShowLightBounds recorder).1.Set
        .ShowGeometryBounds true []).calls .ShowLightBounds = [] ∧
    ((((Registry.initial ⟨0, 0⟩ : Registry (List Bool) Nat).attach .ShowLightBounds
        recorder).1.Set .ShowGeometryBounds true []).reg.prop .ShowLightBounds).Get = false ∧
    (((Registry.initial ⟨0, 0⟩ : Registry (List Bool) Nat).attach .ShowLightBounds recorder).1.Set
        .ShowGeometryBounds true []).world = [] :=
  have h := C15_set_leaves_other_members
    ((Registry.initial ⟨0, 0⟩ : Registry (List Bool) Nat).attach .ShowLightBounds recorder).1
    .ShowGeometryBounds .ShowLightBounds true [] (by decide)
  ⟨h.2.2.2.1, h.2.1, rfl⟩

/-- Every call of a delivery is made with the delivered value. -/
theorem deliver_calls_arg (ls : List (ListenerID × Callback T W E)) (v : T) (w : W) :
    ∀ c ∈ (deliver ls v w).calls, c.2 = v := by
  induction ls generalizing w with
  | nil => intro c hc; simp [deliver] at hc
  | cons l rest ih =>
    obtain ⟨h, cb⟩ := l
    intro c hc
    cases hf : (cb v w).2 with
    | some e =>
      rw [deliver_cons_fail h cb rest v w e hf] at hc
      simp only [List.mem_singleton] at hc
      subst hc
      rfl
    | none =>
      rw [deliver_cons_ok h cb rest v w hf] at hc
      rcases List.mem_cons.mp hc with rfl | hc
      · rfl
      · exact ih _ c hc

/-- C16. `Set(v)` writes the value before it notifies.  The listener calls of
`Set(v)`, the world it leaves and its error are those of `Invoke` performed on
the property as `Set` leaves it, with the argument read from that property; in
that state `Get()` returns `v`, and every listener is called with that stored
value.  Nothing is written after the delivery: whether `Set` returns or ends
with a listener's error `e`, the property holds `v` and its listeners are those
it had. -/
theorem C16_set_writes_before_notifying (p : Property T W E) (v : T) (w : W) :
    (p.Set v w).self.Get = v ∧
    (p.Set v w).self.OnValueChanged = p.OnValueChanged ∧
    (p.Set v w).calls
      = ((p.Set v w).self.OnValueChanged.Invoke (p.Set v w).self.Get w).calls ∧
    (p.Set v w).world
      = ((p.Set v w).self.OnValueChanged.Invoke (p.Set v w).self.Get w).world ∧
    (p.Set v w).error
      = ((p.Set v w).self.OnValueChanged.Invoke (p.Set v w).self.Get w).error ∧
    (∀ c ∈ (p.Set v w).calls, c.2 = (p.Set v w).self.Get) ∧
    (∀ e : E, (p.Set v w).result = .error e →
      (p.Set v w).self.Get = v ∧ (p.Set v w).self = { p with m_value := v }) := by
  refine ⟨rfl, rfl, rfl, rfl, Set_error p v w, ?_, fun _ _ => ⟨rfl, rfl⟩⟩
  intro c hc
  exact deliver_calls_arg _ v w c hc

/-- C16, at a property that holds 0 and has a listener raising the error 13:
`Set(5)` ends with the error 13 and the property holds 5. -/
theorem C16_set_writes_before_notifying_witness :
    (((Property.ctor 0 : Property Nat (List Nat) Nat).attach (alwaysFails 13)).1.Set 5 []).result
      = .error 13 ∧
    (((Property.ctor 0 : Property Nat (List Nat) Nat).attach (alwaysFails 13)).1.Set 5
      []).self.Get = 5 :=
  ⟨rfl,
   ((C16_set_writes_before_notifying
      ((Property.ctor 0 : Property Nat (List Nat) Nat).attach (alwaysFails 13)).1 5
      []).2.2.2.2.2.2 13 rfl).1⟩

end OvEditor.Settings.EditorSettings

/-! ## Load -/

namespace OvEditor.Settings.EditorSettings

open OvTools.Eventing

variable {T W E : Type}

/-- What `Load` does for one setting: nothing, or one `Set` with the stored
value. -/
theorem loadEntry_cases (store : Store) (st : RegOutcome W E) (s : Setting) :
    loadEntry store st s = st ∨
    ∃ v, st.error = none ∧ store.read s = some v ∧
      loadEntry store st s
        = { reg := st.reg.put s ((st.reg.prop s).Set v st.world).self,
            world := ((st.reg.prop s).Set v st.world).world,
            calls := Function.update st.calls s
              (st.calls s ++ ((st.reg.prop s).Set v st.world).calls),
            error := ((st.reg.prop s).Set v st.world).error } := by
  unfold loadEntry
  cases herr : st.error with
  | some e => exact Or.inl rfl
  | none =>
    cases hread : store.read s with
    | none => exact Or.inl rfl
    | some v => exact Or.inr ⟨v, rfl, rfl, rfl⟩

theorem loadEntry_of_error (store : Store) (st : RegOutcome W E) (s : Setting) (e : E)
    (herr : st.error = some e) : loadEntry store st s = st := by
  unfold loadEntry
  rw [herr]

theorem loadEntry_of_absent (store : Store) (st : RegOutcome W E) (s : Setting)
    (habs : store.read s = none) : loadEntry store st s = st := by
  unfold loadEntry
  cases st.error with
  | some e => rfl
  | none => simp only [habs]

theorem loadEntry_of_present (store : Store) (st : RegOutcome W E) (s : Setting)
    (v : s.valueType) (herr : st.error = none) (hread : store.read s = some v) :
    loadEntry store st s
      = { reg := st.reg.put s ((st.reg.prop s).Set v st.world).self,
          world := ((st.reg.prop s).Set v st.world).world,
          calls := Function.update st.calls s
            (st.calls s ++ ((st.reg.prop s).Set v st.world).calls),
          error := ((st.reg.prop s).Set v st.world).error } := by
  unfold loadEntry
  simp only [herr, hread]

theorem loadAll_of_error (store : Store) (ss : List Setting) (st : RegOutcome W E) (e : E)
    (herr : st.error = some e) : loadAll store ss st = st := by
  induction ss with
  | nil => rfl
  | cons a rest ih =>
    show loadAll store rest (loadEntry store st a) = st
    rw [loadEntry_of_error store st a e herr, ih]

theorem loadAll_cons (store : Store) (a : Setting) (rest : List Setting)
    (st : RegOutcome W E) :
    loadAll store (a :: rest) st = loadAll store rest (loadEntry store st a) := rfl

/-- A `Load` that ends without error had no error on the way. -/
theorem loadAll_error_none (store : Store) (ss : List Setting) (st : RegOutcome W E)
    (hok : (loadAll store ss st).error = none) : st.error = none := by
  cases herr : st.error with
  | none => rfl
  | some e =>
    rw [loadAll_of_error store ss st e herr, herr] at hok
    exact hok

/-- One setting of `Load` leaves the other members and their calls alone. -/
theorem loadEntry_other (store : Store) (st : RegOutcome W E) (s s' : Setting)
    (hne : s' ≠ s) :
    (loadEntry store st s).reg.prop s' = st.reg.prop s' ∧
    (loadEntry store st s).calls s' = st.calls s' := by
  rcases loadEntry_cases store st s with h | ⟨v, _, _, h⟩
  · rw [h]
    exact ⟨rfl, rfl⟩
  · rw [h]
    exact ⟨Function.update_noteq hne _ _, Function.update_noteq hne _ _⟩

/-- Settings that `Load` does not visit keep their state and their calls. -/
theorem loadAll_not_visited (store : Store) (ss : List Setting) (st : RegOutcome W E)
    (s' : Setting) (hout : s' ∉ ss) :
    (loadAll store ss st).reg.prop s' = st.reg.prop s' ∧
    (loadAll store ss st).calls s' = st.calls s' := by
  induction ss generalizing st with
  | nil => exact ⟨rfl, rfl⟩
  | cons a rest ih =>
    rw [loadAll_cons]
    have hne : s' ≠ a := fun h => hout (h ▸ List.mem_cons_self _ _)
    have hrest : s' ∉ rest := fun h => hout (List.mem_cons_of_mem _ h)
    obtain ⟨h1, h2⟩ := ih (loadEntry store st a) hrest
    obtain ⟨h3, h4⟩ := loadEntry_other store st a s' hne
    exact ⟨h1.trans h3, h2.trans h4⟩

/-- Whatever happens during `Load`, a visited member is either left as it was,
without a call, or has undergone exactly one `Set` with the value stored for
it. -/
theorem loadAll_never_silent (store : Store) (ss : List Setting) (hnd : ss.Nodup)
    (st : RegOutcome W E) (s : Setting) (hs : s ∈ ss) :
    ((loadAll store ss st).reg.prop s = st.reg.prop s ∧
      (loadAll store ss st).calls s = st.calls s) ∨
    ∃ v w1, store.read s = some v ∧
      (loadAll store ss st).reg.prop s = ((st.reg.prop s).Set v w1).self ∧
      (loadAll store ss st).calls s = st.calls s ++ ((st.reg.prop s).Set v w1).calls := by
  induction ss generalizing st with
  | nil => cases hs
  | cons a rest ih =>
    rw [loadAll_cons]
    obtain ⟨hanot, hndrest⟩ := List.nodup_cons.mp hnd
    rcases List.mem_cons.mp hs with rfl | hrest
    · obtain ⟨h1, h2⟩ := loadAll_not_visited store rest (loadEntry store st s) s hanot
      rcases loadEntry_cases store st s with h | ⟨v, _, hread, h⟩
      · left
        rw [h1, h2, h]
        exact ⟨rfl, rfl⟩
      · right
        refine ⟨v, st.world, hread, ?_, ?_⟩
        · rw [h1, h]
          exact Function.update_same _ _ _
        · rw [h2, h]
          exact Function.update_same _ _ _
    · have hne : s ≠ a := fun h => hanot (h ▸ hrest)
      obtain ⟨h3, h4⟩ := loadEntry_other store st a s hne
      rcases ih hndrest (loadEntry store st a) hrest with ⟨h1, h2⟩ | ⟨v, w1, hread, h1, h2⟩
      · left
        exact ⟨h1.trans h3, h2.trans h4⟩
      · right
        refine ⟨v, w1, hread, ?_, ?_⟩
        · rw [h1, h3]
        · rw [h2, h3, h4]

/-- A `Load` that ends without error has performed, on every visited member
that is present in the store, one `Set` with the stored value, and that `Set`
returned; it has left the absent members alone. -/
theorem loadAll_restores (store : Store) (ss : List Setting) (hnd : ss.Nodup)
    (st : RegOutcome W E) (hok : (loadAll store ss st).error = none) (s : Setting)
    (hs : s ∈ ss) :
    (∀ v, store.read s = some v →
      ∃ w1, ((st.reg.prop s).Set v w1).error = none ∧
        (loadAll store ss st).reg.prop s = ((st.reg.prop s).Set v w1).self ∧
        (loadAll store ss st).calls s = st.calls s ++ ((st.reg.prop s).Set v w1).calls) ∧
    (store.read s = none →
      (loadAll store ss st).reg.prop s = st.reg.prop s ∧
      (loadAll store ss st).calls s = st.calls s) := by
  induction ss generalizing st with
  | nil => cases hs
  | cons a rest ih =>
    rw [loadAll_cons] at hok ⊢
    obtain ⟨hanot, hndrest⟩ := List.nodup_cons.mp hnd
    have hok1 : (loadEntry store st a).error = none := loadAll_error_none store rest _ hok
    have hok0 : st.error = none := by
      cases herr : st.error with
      | none => rfl
      | some e =>
        rw [loadEntry_of_error store st a e herr, herr] at hok1
        exact hok1
    rcases List.mem_cons.mp hs with rfl | hrest
    · obtain ⟨h1, h2⟩ := loadAll_not_visited store rest (loadEntry store st s) s hanot
      constructor
      · intro v hread
        have h := loadEntry_of_present store st s v hok0 hread
        refine ⟨st.world, ?_, ?_, ?_⟩
        · rw [h] at hok1
          exact hok1
        · rw [h1, h]
          exact Function.update_same _ _ _
        · rw [h2, h]
          exact Function.update_same _ _ _
      · intro habs
        rw [h1, h2, loadEntry_of_absent store st s habs]
        exact ⟨rfl, rfl⟩
    · have hne : s ≠ a := fun h => hanot (h ▸ hrest)
      obtain ⟨h3, h4⟩ := loadEntry_other store st a s hne
      obtain ⟨ih1, ih2⟩ := ih hndrest (loadEntry store st a) hok hrest
      constructor
      · intro v hread
        obtain ⟨w1, e1, e2, e3⟩ := ih1 v hread
        refine ⟨w1, ?_, ?_, ?_⟩
        · rw [← h3]
          exact e1
        · rw [e2, h3]
        · rw [e3, h3, h4]
      · intro habs
        obtain ⟨e2, e3⟩ := ih2 habs
        exact ⟨e2.trans h3, e3.trans h4⟩

theorem Setting.all_nodup : Setting.all.Nodup := by
  decide

theorem Setting.mem_all (s : Setting) : s ∈ Setting.all := by
  cases s <;> decide

end OvEditor.Settings.EditorSettings

namespace OvEditor.Settings.EditorSettings

open OvTools.Eventing

variable {T W E : Type}

/-- C12 as stated fails.  `ShowGeometryBounds` has a listener that raises an
error and `ShowLightBounds` has a recording listener; the store holds `true`
for both.  `Load` ends with the error of the first listener: `ShowLightBounds`
is present in the store but is not restored (it still holds `false`) and its
listener is not called, while a direct `Set(true)` would have called it. -/
theorem C12_counterexample :
    (Load (Store.bounds true true)
      (((Registry.initial ⟨0, 0⟩ : Registry (List Bool) Nat).attach .ShowGeometryBounds
        (alwaysFails 13)).1.attach .ShowLightBounds recorder).1 []).error = some 13 ∧
    ((Load (Store.bounds true true)
      (((Registry.initial ⟨0, 0⟩ : Registry (List Bool) Nat).attach .ShowGeometryBounds
        (alwaysFails 13)).1.attach .ShowLightBounds recorder).1 []).reg.prop
          .ShowLightBounds).Get = false ∧
    (Load (Store.bounds true true)
      (((Registry.initial ⟨0, 0⟩ : Registry (List Bool) Nat).attach .ShowGeometryBounds
        (alwaysFails 13)).1.attach .ShowLightBounds recorder).1 []).calls .ShowLightBounds = [] ∧
    ((((Registry.initial ⟨0, 0⟩ : Registry (List Bool) Nat).attach .ShowGeometryBounds
        (alwaysFails 13)).1.attach .ShowLightBounds recorder).1.Set .ShowLightBounds true
          []).calls .ShowLightBounds = [(0, true)] := by
  decide

/-- C12, amended.  `Load` never overwrites a member silently: whatever happens,
each member is either left as it was, without a call, or has undergone exactly
the call `Set(v)` with the value `v` stored for it, with the listener calls of
that `Set`.  When `Load` returns (no `Set` ended with a listener's error),
every member present in the store holds the stored value and every listener
attached to it before `Load` has been called once with that value, in
attachment order, exactly as by a direct `Set`; the members absent from the
store are left as they were. -/
theorem C12_load_restores_through_Set (store : Store) (reg : Registry W E) (w : W)
    (s : Setting) :
    (((Load store reg w).reg.prop s = reg.prop s ∧ (Load store reg w).calls s = []) ∨
      ∃ v w1, store.read s = some v ∧
        (Load store reg w).reg.prop s = ((reg.prop s).Set v w1).self ∧
        (Load store reg w).calls s = ((reg.prop s).Set v w1).calls) ∧
    ((Load store reg w).error = none →
      (∀ v, store.read s = some v →
        ((Load store reg w).reg.prop s).Get = v ∧
        (Load store reg w).calls s
          = (reg.prop s).OnValueChanged.handles.map (fun k => (k, v)) ∧
        ∃ w1, ((reg.prop s).Set v w1).error = none ∧
          (Load store reg w).reg.prop s = ((reg.prop s).Set v w1).self ∧
          (Load store reg w).calls s = ((reg.prop s).Set v w1).calls) ∧
      (store.read s = none →
        (Load store reg w).reg.prop s = reg.prop s ∧ (Load store reg w).calls s = [])) := by
  constructor
  · rcases loadAll_never_silent store Setting.all Setting.all_nodup
        { reg := reg, world := w, calls := fun _ => [], error := none } s (Setting.mem_all s)
      with ⟨h1, h2⟩ | ⟨v, w1, hread, h1, h2⟩
    · exact Or.inl ⟨h1, h2⟩
    · exact Or.inr ⟨v, w1, hread, h1, by rw [Load, h2]; exact List.nil_append _⟩
  · intro hok
    obtain ⟨hpres, habs⟩ := loadAll_restores store Setting.all Setting.all_nodup
      { reg := reg, world := w, calls := fun _ => [], error := none } hok s (Setting.mem_all s)
    constructor
    · intro v hread
      obtain ⟨w1, e1, e2, e3⟩ := hpres v hread
      have e3' : (Load store reg w).calls s = ((reg.prop s).Set v w1).calls := by
        rw [Load, e3]
        exact List.nil_append _
      refine ⟨?_, ?_, w1, e1, e2, e3'⟩
      · rw [Load, e2]
        rfl
      · rw [e3']
        exact Set_calls_of_ok (reg.prop s) v w1 e1
    · intro hnone
      exact habs hnone

/-- C12 amended, at the initial registry with a recording listener on
`ShowLightBounds` and a store that holds `true` for the two bounds settings:
`Load` returns, `ShowLightBounds` holds `true` and its listener was called once
with `true`. -/
theorem C12_load_restores_through_Set_witness :
    (Load (Store.bounds true true)
      ((Registry.initial ⟨0, 0⟩ : Registry (List Bool) Nat).attach .ShowLightBounds recorder).1
      []).error = none ∧
    ((Load (Store.bounds true true)
      ((Registry.initial ⟨0, 0⟩ : Registry (List Bool) Nat).attach .ShowLightBounds recorder).1
      []).reg.prop .ShowLightBounds).Get = true ∧
    (Load (Store.bounds true true)
      ((Registry.initial ⟨0, 0⟩ : Registry (List Bool) Nat).attach .ShowLightBounds recorder).1
      []).calls .ShowLightBounds = [(0, true)] :=
  have h := ((C12_load_restores_through_Set (Store.bounds true true)
    ((Registry.initial ⟨0, 0⟩ : Registry (List Bool) Nat).attach .ShowLightBounds recorder).1
    [] .ShowLightBounds).2 (by decide)).1 true rfl
  ⟨by decide, h.1, h.2.1⟩

end OvEditor.Settings.EditorSettings
